import Mathlib

/-!
Verification development for the combat/entity-behavior core of a top-down
action game (effect engine, enemy behavior state machines, dodge system,
ability resource gating, player vertical state machine, damage pipeline).

The JavaScript source is embedded shallowly:
* machine numbers become `ℚ` (the quantities involved are exact rationals in
  every scenario considered; `Math.pow(0.05, dt)` in the knockback decay is
  the one genuinely real-valued operation and is modelled over `ℝ`);
* `Math.sqrt`-based distance comparisons are embedded square-free: the source
  compares `Math.sqrt d2` against a threshold `t`, which for `0 ≤ d2` is
  equivalent to a polynomial comparison (`sqrt d2 < t ↔ 0 ≤ t ∧ d2 < t²`,
  `sqrt d2 > t ↔ t < 0 ∨ t² < d2`); the bridge lemmas `distLtB_iff_sqrt` and
  `distGtB_iff_sqrt` below prove this equivalence, so the Boolean tests used
  by the engine agree exactly with the source's real-valued tests;
* mutation of entities becomes explicit state passing;
* JS `Set` objects of enemy ids become `List ℕ` with membership.
-/

namespace Zelda

/-! ## Geometry (src/js/utils.js) -/

/-- Squared distance between two points. `utils.distance` returns
`Math.sqrt` of this; all comparisons in the engine are against
nonnegative-or-sign-checked thresholds, so we compare squares (see the
bridge lemmas below). -/
def dist2 (x1 y1 x2 y2 : ℚ) : ℚ := (x1 - x2) ^ 2 + (y1 - y2) ^ 2

/-- Embedding of `Math.sqrt d2 < t` (for `d2 ≥ 0`) as a rational test. -/
def distLtB (d2 t : ℚ) : Bool := decide (0 ≤ t) && decide (d2 < t ^ 2)

/-- Embedding of `Math.sqrt d2 > t` (for `d2 ≥ 0`) as a rational test. -/
def distGtB (d2 t : ℚ) : Bool := decide (t < 0) || decide (t ^ 2 < d2)

theorem dist2_nonneg (x1 y1 x2 y2 : ℚ) : 0 ≤ dist2 x1 y1 x2 y2 := by
  unfold dist2; positivity

/-- The square-free test agrees with the source's `sqrt`-based test. -/
theorem distLtB_iff_sqrt (d2 t : ℚ) (_h : 0 ≤ d2) :
    distLtB d2 t = true ↔ Real.sqrt d2 < t := by
  unfold distLtB
  simp only [Bool.and_eq_true, decide_eq_true_eq]
  constructor
  · rintro ⟨ht, hlt⟩
    have ht0 : (0 : ℚ) < t := by
      rcases eq_or_lt_of_le ht with ht0 | ht0
      · exfalso
        have : d2 < 0 := by rw [← ht0] at hlt; simpa using hlt
        linarith
      · exact ht0
    refine (Real.sqrt_lt' (x := ((d2 : ℚ) : ℝ)) (y := (t : ℝ))
      (by exact_mod_cast ht0)).mpr ?_
    have : ((d2 : ℚ) : ℝ) < ((t ^ 2 : ℚ) : ℝ) := by exact_mod_cast hlt
    push_cast at this ⊢
    linarith
  · intro hs
    have h0 : (0 : ℝ) ≤ Real.sqrt d2 := Real.sqrt_nonneg _
    have ht0 : (0 : ℝ) < (t : ℝ) := lt_of_le_of_lt h0 hs
    have ht : (0 : ℚ) < t := by exact_mod_cast ht0
    refine ⟨le_of_lt ht, ?_⟩
    have := (Real.sqrt_lt' (x := ((d2 : ℚ) : ℝ)) (y := (t : ℝ)) ht0).mp hs
    have h2 : ((d2 : ℚ) : ℝ) < ((t ^ 2 : ℚ) : ℝ) := by push_cast at this ⊢; linarith
    exact_mod_cast h2

/-- The square-free test agrees with the source's `sqrt`-based test. -/
theorem distGtB_iff_sqrt (d2 t : ℚ) (_h : 0 ≤ d2) :
    distGtB d2 t = true ↔ (t : ℝ) < Real.sqrt d2 := by
  unfold distGtB
  simp only [Bool.or_eq_true, decide_eq_true_eq]
  rcases lt_or_le t 0 with ht | ht
  · have h0 : (0 : ℝ) ≤ Real.sqrt d2 := Real.sqrt_nonneg _
    have ht' : ((t : ℚ) : ℝ) < 0 := by exact_mod_cast ht
    exact iff_of_true (Or.inl ht) (by linarith)
  · have key : (t : ℝ) < Real.sqrt d2 ↔ ((t : ℝ)) ^ 2 < ((d2 : ℚ) : ℝ) :=
      Real.lt_sqrt (by exact_mod_cast ht)
    constructor
    · rintro (ht' | hlt)
      · exact absurd ht' (not_lt.mpr ht)
      · refine key.mpr ?_
        have : ((t ^ 2 : ℚ) : ℝ) < ((d2 : ℚ) : ℝ) := by exact_mod_cast hlt
        push_cast at this ⊢
        linarith
    · intro hs
      right
      have := key.mp hs
      have h2 : ((t ^ 2 : ℚ) : ℝ) < ((d2 : ℚ) : ℝ) := by push_cast; linarith
      exact_mod_cast h2

/-! ## Enemies (src/js/enemy.js) -/

/-- Enemy record as seen by the Effect Engine.  `hits` instruments the
number of `takeDamage` invocations (not in the source; used to state
exactly-once properties).  `knockCount` instruments `applyKnockback`
invocations: inside the Effect Engine the knockback velocity is write-only
(no hit-test reads it) and the pushed direction involves `Math.sqrt`
normalisation, so the engine-level model records only that an impulse was
applied; the knockback velocity dynamics themselves are modelled separately
(see the Knockback section). -/
structure EnemyM where
  id : ℕ
  x : ℚ
  y : ℚ
  radius : ℚ
  hp : ℚ
  dead : Bool
  flashTimer : ℚ
  slowFactor : ℚ
  slowTimer : ℚ
  hits : ℕ
  knockCount : ℕ
  deriving Repr, DecidableEq

/-- Embedding of `Enemy.takeDamage` (src/js/enemy.js lines 257-261). -/
def EnemyM.takeDamage (e : EnemyM) (amount : ℚ) : EnemyM :=
  let hp := e.hp - amount
  { e with hp := hp, flashTimer := 1/10,
           dead := if hp ≤ 0 then true else e.dead,
           hits := e.hits + 1 }

/-- Embedding of `Enemy.applySlow` (src/js/enemy.js lines 72-75). -/
def EnemyM.applySlow (e : EnemyM) (factor duration : ℚ) : EnemyM :=
  { e with slowFactor := factor, slowTimer := duration }

/-- Records an `Enemy.applyKnockback` invocation (see `EnemyM`). -/
def EnemyM.recordKnockback (e : EnemyM) : EnemyM :=
  { e with knockCount := e.knockCount + 1 }

/-! ## Effects (src/js/weapons.js)

The engine owns a heterogeneous pool of effects.  The model covers the
variants the verified claims exercise: projectiles (also `FairyBolt`, which
shares the projectile hit policy), the three expanding rings
(`NovaEffect`, `FrostRingEffect`, `PulseEffect`), the delayed-AoE
`MeteorEffect` and the eagerly-resolved `LightningArcEffect`.  The melee
`SwingEffect`, `WindPushEffect` and `SpinAttackState` variants are not
needed by any claim and are omitted. -/

/-- One recorded lightning-chain segment (`this.chains` entries in
`LightningArcEffect`). -/
structure Chain where
  x1 : ℚ
  y1 : ℚ
  x2 : ℚ
  y2 : ℚ
  damage : ℚ
  deriving Repr, DecidableEq

/-- A combat effect; each constructor carries the fields of the
corresponding JS class (visual-only fields such as `color` are dropped). -/
inductive Effect where
  | projectile (x y vx vy damage radius lifetime maxLifetime : ℚ)
      (hitIds : List ℕ) (alive : Bool)
  | nova (x y damage maxRadius expandSpeed radius : ℚ)
      (hitIds : List ℕ) (alive : Bool)
  | frostRing (x y damage maxRadius expandSpeed slowFactor slowDuration radius : ℚ)
      (hitIds : List ℕ) (alive : Bool)
  | pulse (x y damage maxRadius expandSpeed knockback radius : ℚ)
      (hitIds : List ℕ) (alive : Bool)
  | meteor (x y damage radius delay timer : ℚ) (phaseImpact : Bool)
      (impactTimer : ℚ) (hitIds : List ℕ) (alive : Bool)
  | lightningArc (timer : ℚ) (chains : List Chain) (alive : Bool)
  deriving Repr, DecidableEq

/-- The `NovaEffect` constructor: radius starts at 10, empty hit set. -/
def mkNova (x y damage maxRadius expandSpeed : ℚ) : Effect :=
  .nova x y damage maxRadius expandSpeed 10 [] true

/-- The `FrostRingEffect` constructor: radius starts at 10, empty hit set. -/
def mkFrostRing (x y damage maxRadius expandSpeed slowFactor slowDuration : ℚ) : Effect :=
  .frostRing x y damage maxRadius expandSpeed slowFactor slowDuration 10 [] true

/-- The `PulseEffect` constructor: radius starts at 10, empty hit set. -/
def mkPulse (x y damage maxRadius expandSpeed knockback : ℚ) : Effect :=
  .pulse x y damage maxRadius expandSpeed knockback 10 [] true

/-- The `Effect.alive` flag read by the engine's cull filter. -/
def Effect.aliveB : Effect → Bool
  | .projectile _ _ _ _ _ _ _ _ _ a => a
  | .nova _ _ _ _ _ _ _ a => a
  | .frostRing _ _ _ _ _ _ _ _ _ a => a
  | .pulse _ _ _ _ _ _ _ _ a => a
  | .meteor _ _ _ _ _ _ _ _ _ a => a
  | .lightningArc _ _ a => a

/-- Per-effect `update(dt)` methods (timer/geometry advance, alive-flag
transition), translated clause by clause from src/js/weapons.js. -/
def Effect.update (dt : ℚ) : Effect → Effect
  | .projectile x y vx vy dmg r life maxLife ids _a =>
      let life := life - dt
      .projectile (x + vx * dt) (y + vy * dt) vx vy dmg r life maxLife ids
        (if life ≤ 0 then false else _a)
  | .nova x y dmg maxR spd r ids _a =>
      let r := r + spd * dt
      .nova x y dmg maxR spd r ids (if r ≥ maxR then false else _a)
  | .frostRing x y dmg maxR spd sf sd r ids _a =>
      let r := r + spd * dt
      .frostRing x y dmg maxR spd sf sd r ids (if r ≥ maxR then false else _a)
  | .pulse x y dmg maxR spd kb r ids _a =>
      let r := r + spd * dt
      .pulse x y dmg maxR spd kb r ids (if r ≥ maxR then false else _a)
  | .meteor x y dmg r delay timer phaseImpact impactTimer ids _a =>
      if phaseImpact = false then
        let timer := timer - dt
        if timer ≤ 0 then
          .meteor x y dmg r delay impactTimer true impactTimer ids _a
        else
          .meteor x y dmg r delay timer false impactTimer ids _a
      else
        let timer := timer - dt
        .meteor x y dmg r delay timer true impactTimer ids
          (if timer ≤ 0 then false else _a)
  | .lightningArc timer chains _a =>
      let timer := timer - dt
      .lightningArc timer chains (if timer ≤ 0 then false else _a)

/-! ### Hit tests (`EffectEngine._check*Hit`) -/

/-- Scan of `_checkProjectileHit`'s enemy loop: first live un-hit enemy
within `proj.radius + enemy.radius` is damaged, then the loop `break`s.
Returns the updated roster and the id hit (if any). -/
def projScan (px py pr dmg : ℚ) (hitIds : List ℕ) :
    List EnemyM → List EnemyM × Option ℕ
  | [] => ([], none)
  | e :: rest =>
      if e.dead || hitIds.contains e.id then
        let (rest2, hit) := projScan px py pr dmg hitIds rest
        (e :: rest2, hit)
      else if distLtB (dist2 px py e.x e.y) (pr + e.radius) then
        (e.takeDamage dmg :: rest, some e.id)
      else
        let (rest2, hit) := projScan px py pr dmg hitIds rest
        (e :: rest2, hit)

/-- Shared enemy loop of `_checkNovaHit` / `_checkFrostRingHit` /
`_checkPulseHit`: annulus test
`dist < radius + enemy.radius && dist > radius - 25` against every live,
not-yet-hit enemy, threading the hit-id set.  `extra` is the per-variant
debuff applied after `takeDamage` (frost: slow; pulse: knockback). -/
def ringScan (cx cy radius dmg : ℚ) (extra : EnemyM → EnemyM) :
    List ℕ → List EnemyM → List ℕ × List EnemyM
  | ids, [] => (ids, [])
  | ids, e :: rest =>
      if e.dead || ids.contains e.id then
        let (ids2, rest2) := ringScan cx cy radius dmg extra ids rest
        (ids2, e :: rest2)
      else
        let d2 := dist2 cx cy e.x e.y
        if distLtB d2 (radius + e.radius) && distGtB d2 (radius - 25) then
          let e2 := extra (e.takeDamage dmg)
          let (ids2, rest2) := ringScan cx cy radius dmg extra (e.id :: ids) rest
          (ids2, e2 :: rest2)
        else
          let (ids2, rest2) := ringScan cx cy radius dmg extra ids rest
          (ids2, e :: rest2)

/-- Enemy loop of `_checkMeteorHit` (impact phase): plain disk test
`dist < meteor.radius + enemy.radius`, each enemy struck at most once. -/
def meteorScan (cx cy radius dmg : ℚ) :
    List ℕ → List EnemyM → List ℕ × List EnemyM
  | ids, [] => (ids, [])
  | ids, e :: rest =>
      if e.dead || ids.contains e.id then
        let (ids2, rest2) := meteorScan cx cy radius dmg ids rest
        (ids2, e :: rest2)
      else if distLtB (dist2 cx cy e.x e.y) (radius + e.radius) then
        let (ids2, rest2) := meteorScan cx cy radius dmg (e.id :: ids) rest
        (ids2, e.takeDamage dmg :: rest2)
      else
        let (ids2, rest2) := meteorScan cx cy radius dmg ids rest
        (ids2, e :: rest2)

/-- One effect's hit-test pass (`EffectEngine._checkHits` switch body),
returning the possibly-mutated effect and roster.  Per source:
projectile/nova/frostRing/pulse checks start with an `alive` guard,
`_checkMeteorHit` only checks the phase, and `lightningArc` has no case
("does damage during construction"). -/
def checkHit (eff : Effect) (enemies : List EnemyM) : Effect × List EnemyM :=
  match eff with
  | .projectile x y vx vy dmg r life maxLife ids a =>
      if a = false then (eff, enemies)
      else
        match projScan x y r dmg ids enemies with
        | (ens, none) => (.projectile x y vx vy dmg r life maxLife ids a, ens)
        | (ens, some hitId) =>
            (.projectile x y vx vy dmg r life maxLife (hitId :: ids) false, ens)
  | .nova x y dmg maxR spd r ids a =>
      if a = false then (eff, enemies)
      else
        let (ids2, ens) := ringScan x y r dmg id ids enemies
        (.nova x y dmg maxR spd r ids2 a, ens)
  | .frostRing x y dmg maxR spd sf sd r ids a =>
      if a = false then (eff, enemies)
      else
        let (ids2, ens) := ringScan x y r dmg (fun e => e.applySlow sf sd) ids enemies
        (.frostRing x y dmg maxR spd sf sd r ids2 a, ens)
  | .pulse x y dmg maxR spd kb r ids a =>
      if a = false then (eff, enemies)
      else
        let extra := fun e : EnemyM => if kb ≠ 0 then e.recordKnockback else e
        let (ids2, ens) := ringScan x y r dmg extra ids enemies
        (.pulse x y dmg maxR spd kb r ids2 a, ens)
  | .meteor x y dmg r delay timer phaseImpact impactTimer ids a =>
      if phaseImpact = false then (eff, enemies)
      else
        let (ids2, ens) := meteorScan x y r dmg ids enemies
        (.meteor x y dmg r delay timer phaseImpact impactTimer ids2 a, ens)
  | .lightningArc _ _ _ => (eff, enemies)

/-- The `_checkHits` loop over the engine's effect pool, threading the
enemy roster (mutations by one effect are visible to the next). -/
def checkHits (effects : List Effect) (enemies : List EnemyM) :
    List Effect × List EnemyM :=
  match effects with
  | [] => ([], enemies)
  | eff :: rest =>
      let (eff2, ens) := checkHit eff enemies
      let (rest2, ens2) := checkHits rest ens
      (eff2 :: rest2, ens2)

/-- Embedding of `EffectEngine.update(dt, enemies)` (src/js/weapons.js
lines 327-339): (a) advance every effect, (c) cull effects whose alive
flag is false, (b) run the hit tests of the survivors. -/
def engineUpdate (dt : ℚ) (enemies : List EnemyM) (effects : List Effect) :
    List Effect × List EnemyM :=
  let effects := effects.map (Effect.update dt)
  let effects := effects.filter Effect.aliveB
  checkHits effects enemies

/-- Iterated engine frames: `engineUpdate` once per `dt` in `dts`. -/
def engineRun (dts : List ℚ) (st : List Effect × List EnemyM) :
    List Effect × List EnemyM :=
  match dts with
  | [] => st
  | dt :: rest => engineRun rest (engineUpdate dt st.2 st.1)

/-- The per-frame order claimed by the specification for
`Advance(dt, enemyRoster)`: "(a) advance every effect's internal
timer/geometry, (b) run the effect's hit-test against every live enemy,
(c) drop effects whose alive flag has gone false" — i.e. hit tests run
before the cull, so an effect that died during (a) is still hit-tested
that frame.  Written from the spec's words for comparison with
`engineUpdate`. -/
def engineUpdateSpecOrder (dt : ℚ) (enemies : List EnemyM)
    (effects : List Effect) : List Effect × List EnemyM :=
  let effects := effects.map (Effect.update dt)
  let (effects, enemies) := checkHits effects enemies
  (effects.filter Effect.aliveB, enemies)

/-! ## Lightning chain construction (`LightningArcEffect._buildChain`,
src/js/weapons.js lines 191-224)

The chain is resolved once, eagerly, at construction.  The source scans the
roster for the nearest live, not-yet-hit enemy strictly closer than the
current best (`nearestDist` starts at `range`); the model scans by index and
compares squared distances, which is equivalent (`Math.sqrt` is strictly
monotone on nonnegatives, and the initial `range` threshold is handled with
the sign-checked `distLtB`). -/

/-- Index of the nearest live, not-yet-hit enemy within `range` of
`(cx, cy)` (the inner `for (const enemy of enemies)` loop): `best` carries
the best (index, squared distance) so far; a candidate wins only by strict
improvement, mirroring `d < nearestDist`. -/
def nearestScan (cx cy range : ℚ) (hitSet : List ℕ) :
    List EnemyM → ℕ → Option (ℕ × ℚ) → Option (ℕ × ℚ)
  | [], _, best => best
  | e :: rest, i, best =>
      if e.dead || hitSet.contains e.id then
        nearestScan cx cy range hitSet rest (i + 1) best
      else
        let d2 := dist2 cx cy e.x e.y
        let better := match best with
          | none => distLtB d2 range
          | some (_, bd2) => decide (d2 < bd2)
        if better then nearestScan cx cy range hitSet rest (i + 1) (some (i, d2))
        else nearestScan cx cy range hitSet rest (i + 1) best

/-- Full result of `_buildChain`: recorded segments, mutated roster, and
the final cursor position / damage / hit set (exposed so the stopping
condition can be stated). -/
structure ChainBuild where
  chains : List Chain
  enemies : List EnemyM
  cx : ℚ
  cy : ℚ
  dmg : ℚ
  hitSet : List ℕ
  deriving Repr

/-- The `for (let i = 0; i < maxChains + 1; i++)` loop of `_buildChain`;
`fuel` is the number of remaining iterations.  Each iteration finds the
nearest valid enemy, records a segment at the *current* damage, applies
`takeDamage` immediately, marks the enemy hit, moves the cursor to it and
multiplies the damage by `decay`. -/
def buildChain (decay range : ℚ) :
    ℕ → ℚ → ℚ → ℚ → List ℕ → List EnemyM → ChainBuild
  | 0, cx, cy, dmg, hitSet, enemies =>
      ⟨[], enemies, cx, cy, dmg, hitSet⟩
  | fuel + 1, cx, cy, dmg, hitSet, enemies =>
      match nearestScan cx cy range hitSet enemies 0 none with
      | none => ⟨[], enemies, cx, cy, dmg, hitSet⟩
      | some (i, _) =>
          match enemies[i]? with
          | none => ⟨[], enemies, cx, cy, dmg, hitSet⟩
          | some e =>
              let seg : Chain := ⟨cx, cy, e.x, e.y, dmg⟩
              let enemies2 := enemies.set i (e.takeDamage dmg)
              let rest := buildChain decay range fuel e.x e.y (dmg * decay)
                (e.id :: hitSet) enemies2
              ⟨seg :: rest.chains, rest.enemies, rest.cx, rest.cy, rest.dmg,
               rest.hitSet⟩

/-- The `LightningArcEffect` constructor: builds the chain eagerly (note the
loop bound `maxChains + 1`), then the effect is a pure 0.4 s visual. -/
def mkLightningArc (x y damage : ℚ) (chainCount : ℕ) (damageDecay range : ℚ)
    (enemies : List EnemyM) : Effect × List EnemyM :=
  let b := buildChain damageDecay range (chainCount + 1) x y damage [] enemies
  (.lightningArc (2/5) b.chains true, b.enemies)

/-! ## Resource-gated ability casts
(src/js/player.js lines 90-98, src/js/abilities/FighterAbilities.js,
MageAbilities and CelestialAbilities)

The casts read and mutate the player's mana pool, their own cooldown
timers, the Mage's `meteorCast` flag and (for the heal) the player's hp,
and push an effect into the engine.  The submitted effect's geometry is
derived from `Math.atan2` of the facing vector and is irrelevant to the
resource claims, so the model counts submissions (`subs`). -/

/-- The state touched by the four resource-gated casts. -/
structure CastSt where
  mp : ℚ
  hp : ℚ
  maxHp : ℚ
  frostRingCooldown : ℚ
  meteorCooldown : ℚ
  meteorCast : Bool
  healCooldown : ℚ
  subs : ℕ
  deriving Repr, DecidableEq

/-- Embedding of `Player.canSpendMp(cost)`. -/
def canSpendMp (mp cost : ℚ) : Bool := decide (mp ≥ cost)

/-- Embedding of `Player.spendMp(cost)`: check-then-deduct, returning the
new pool and whether the deduction happened. -/
def spendMp (mp cost : ℚ) : ℚ × Bool :=
  if mp < cost then (mp, false) else (mp - cost, true)

/-- Embedding of `FighterAbilities._castWind` (mpCost 1, no cooldown):
gate on `canSpendMp`, then `spendMp`, then submit a `WindPushEffect`. -/
def castWind (s : CastSt) : CastSt :=
  if ¬ canSpendMp s.mp 1 then s
  else
    let mp := (spendMp s.mp 1).1
    { s with mp := mp, subs := s.subs + 1 }

/-- Embedding of `MageAbilities._castFrostRing` (mpCost 1, cooldown 5.0):
gate on the cooldown, then on `canSpendMp`, then `spendMp`, reset the
cooldown and submit a `FrostRingEffect`. -/
def castFrostRing (s : CastSt) : CastSt :=
  if s.frostRingCooldown > 0 then s
  else if ¬ canSpendMp s.mp 1 then s
  else
    let mp := (spendMp s.mp 1).1
    { s with mp := mp, frostRingCooldown := 5, subs := s.subs + 1 }

/-- Embedding of `MageAbilities._castMeteor` (mpCost 2, cooldown 8.0):
gate on the cooldown, then on `canSpendMp`, then `spendMp`, set the
`meteorCast` flag, reset the cooldown and submit a `MeteorEffect`. -/
def castMeteor (s : CastSt) : CastSt :=
  if s.meteorCooldown > 0 then s
  else if ¬ canSpendMp s.mp 2 then s
  else
    let mp := (spendMp s.mp 2).1
    { s with mp := mp, meteorCast := true, meteorCooldown := 8,
             subs := s.subs + 1 }

/-- Embedding of `CelestialAbilities._castMinorHeal` (mpCost 2, cooldown
6.0, heals 20% of max HP, submits nothing): gate on the cooldown, then on
`canSpendMp`, then `spendMp`, reset the cooldown and heal. -/
def castMinorHeal (s : CastSt) : CastSt :=
  if s.healCooldown > 0 then s
  else if ¬ canSpendMp s.mp 2 then s
  else
    let mp := (spendMp s.mp 2).1
    let healAmt := s.maxHp * (1/5)
    { s with mp := mp, healCooldown := 6,
             hp := min (s.hp + healAmt) s.maxHp }

/-! ## Melee enemy state machine (`Enemy._updateMelee`,
src/js/enemy.js lines 141-200)

The FSM is driven by the frame time `dt` and the enemy-player distance.
The chase-phase movement (wobble steering) changes only the enemy's
position, which feeds back into the FSM solely through the distance, so
the model takes the per-frame distance `d` as an input; `d` stands for the
value `distance(this, player)` computed at the top of `_updateMelee`. -/

inductive MeleePhase where
  | chase
  | windup
  | attack
  | recovery
  deriving Repr, DecidableEq

/-- Per-enemy melee FSM state: current phase, `meleeTimer` and
`attackCooldownTimer`. -/
structure MeleeSt where
  phase : MeleePhase
  timer : ℚ
  cooldown : ℚ
  deriving Repr, DecidableEq

/-- Melee timing/range constants of an enemy type plus the two radii
entering the range tests. -/
structure MeleeParams where
  attackRange : ℚ
  windupTime : ℚ
  recoveryTime : ℚ
  attackCooldown : ℚ
  playerRadius : ℚ
  enemyRadius : ℚ
  deriving Repr, DecidableEq

/-- One `_updateMelee` step.  Returns the new state and whether
`player.takeDamage` was invoked this step.  Mirrors the source: the
cooldown is clamped-decremented first; `inRange` uses
`attackRange + player.radius + this.radius`; the attack phase re-checks
range with an extra `+ 10` tolerance, applies damage at most once, resets
the attack cooldown and enters recovery. -/
def meleeStep (P : MeleeParams) (dt d : ℚ) (s : MeleeSt) : MeleeSt × Bool :=
  let cooldown := max 0 (s.cooldown - dt)
  let inRange := decide (d < P.attackRange + P.playerRadius + P.enemyRadius)
  match s.phase with
  | .chase =>
      if inRange && decide (cooldown ≤ 0) then
        (⟨.windup, P.windupTime, cooldown⟩, false)
      else
        (⟨.chase, s.timer, cooldown⟩, false)
  | .windup =>
      let t := s.timer - dt
      if t ≤ 0 then (⟨.attack, 1/10, cooldown⟩, false)
      else (⟨.windup, t, cooldown⟩, false)
  | .attack =>
      let t := s.timer - dt
      if t ≤ 0 then
        let hit := decide (d < P.attackRange + P.playerRadius + P.enemyRadius + 10)
        (⟨.recovery, P.recoveryTime, P.attackCooldown⟩, hit)
      else (⟨.attack, t, cooldown⟩, false)
  | .recovery =>
      let t := s.timer - dt
      if t ≤ 0 then (⟨.chase, t, cooldown⟩, false)
      else (⟨.recovery, t, cooldown⟩, false)

/-- Iterated melee steps over per-frame inputs `(dt, d)`, instrumented
with the damage count of the current attack cycle: the counter resets when
a new cycle begins (chase → windup) and increments on each
`player.takeDamage` invocation. -/
def meleeRun (P : MeleeParams) : List (ℚ × ℚ) → MeleeSt → ℕ → MeleeSt × ℕ
  | [], s, cyc => (s, cyc)
  | (dt, d) :: rest, s, cyc =>
      let (s2, hit) := meleeStep P dt d s
      let cyc2 :=
        if s.phase = .chase ∧ s2.phase = .windup then 0
        else if hit then cyc + 1 else cyc
      meleeRun P rest s2 cyc2

/-! ## Dodge system (src/unnamed DodgeSystem, dodge.js)

`execute(moveDir, facingDir)` is the single entry point; one shared
cooldown gates roll, blink and backstep.  The model keeps the cooldown,
the two active-motion flags and their timers, and the player's
invulnerability timer; it instruments `triggers` with the number of
motion starts (`_triggerRoll` / `_triggerBlink` / `_triggerBackstep`
invocations).  Positions, trails and blink markers are cosmetic or depend
on the `Math.sqrt`-normalised direction and are not needed by the claims,
so they are omitted.  `normalize` returns the zero vector exactly when its
input is the zero vector, which is all the `execute` guards observe. -/

inductive EvadeType where
  | roll
  | blink
  deriving Repr, DecidableEq

/-- Dodge system state (plus the player's `invulnTimer`, which the
triggers write). -/
structure DodgeSt where
  cooldown : ℚ
  maxCooldown : ℚ
  active : Bool
  timer : ℚ
  backstepActive : Bool
  backstepTimer : ℚ
  invuln : ℚ
  triggers : ℕ
  deriving Repr, DecidableEq

/-- Constants from `DODGE` and `BACK_JUMP` (src/js/constants.js). -/
def rollDuration : ℚ := 1/4
def rollCooldownC : ℚ := 3/2
def rollIframes : ℚ := 1/4
def blinkCooldownC : ℚ := 2
def blinkIframes : ℚ := 3/20
def backstepDuration : ℚ := 3/25
def backstepCooldownC : ℚ := 2
def backstepIframes : ℚ := 3/20

/-- Embedding of `DodgeSystem._triggerRoll`. -/
def triggerRoll (s : DodgeSt) : DodgeSt :=
  { s with active := true, timer := rollDuration,
           cooldown := rollCooldownC, maxCooldown := rollCooldownC,
           invuln := max s.invuln rollIframes, triggers := s.triggers + 1 }

/-- Embedding of `DodgeSystem._triggerBlink` (teleport and markers are
positional/cosmetic; the cooldown and i-frame writes are kept). -/
def triggerBlink (s : DodgeSt) : DodgeSt :=
  { s with cooldown := blinkCooldownC, maxCooldown := blinkCooldownC,
           invuln := max s.invuln blinkIframes, triggers := s.triggers + 1 }

/-- Embedding of `DodgeSystem._triggerBackstep`. -/
def triggerBackstep (s : DodgeSt) : DodgeSt :=
  { s with backstepActive := true, backstepTimer := backstepDuration,
           cooldown := backstepCooldownC, maxCooldown := backstepCooldownC,
           invuln := max s.invuln backstepIframes, triggers := s.triggers + 1 }

/-- Embedding of `DodgeSystem.execute(moveDir, facingDir)`: no-op while
the shared cooldown runs or a roll/backstep is in progress; otherwise a
directional dodge (roll or blink by evade type) if `moveDir` is nonzero,
else a backstep opposite to a nonzero facing. -/
def execute (et : EvadeType) (mvx mvy fx fy : ℚ) (s : DodgeSt) : DodgeSt :=
  if s.cooldown > 0 || s.active || s.backstepActive then s
  else if mvx ≠ 0 ∨ mvy ≠ 0 then
    if mvx = 0 ∧ mvy = 0 then s
    else match et with
      | .blink => triggerBlink s
      | .roll => triggerRoll s
  else
    if fx = 0 ∧ fy = 0 then s
    else triggerBackstep s

/-- Embedding of `DodgeSystem.update(dt)` (cooldown tick, roll/backstep
timers and their deactivation; trails and blink markers omitted). -/
def dodgeUpdate (dt : ℚ) (s : DodgeSt) : DodgeSt :=
  let s := if s.cooldown > 0 then { s with cooldown := s.cooldown - dt } else s
  let s :=
    if s.active then
      let t := s.timer - dt
      { s with timer := t, active := if t ≤ 0 then false else true }
    else s
  if s.backstepActive then
    let t := s.backstepTimer - dt
    { s with backstepTimer := t, backstepActive := if t ≤ 0 then false else true }
  else s

/-! ## Player damage pipeline and vertical state machine
(src/js/player.js lines 181-187, src/js/playerState.js) -/

/-- The player fields read or written by `takeDamage` and the vertical
state machine. -/
structure PlayerM where
  x : ℚ
  y : ℚ
  radius : ℚ
  hp : ℚ
  invulnTimer : ℚ
  defense : ℚ
  z : ℚ
  deriving Repr, DecidableEq

/-- Embedding of `Player.takeDamage(amount)`: no-op during i-frames;
otherwise the raw amount is reduced by `1 - defense`, hp is decremented
and clamped below at 0, and a fresh 0.3 s invulnerability window starts. -/
def PlayerM.takeDamage (p : PlayerM) (amount : ℚ) : PlayerM :=
  if p.invulnTimer > 0 then p
  else
    let reduced := amount * (1 - p.defense)
    let hp := p.hp - reduced
    { p with hp := if hp < 0 then 0 else hp, invulnTimer := 3/10 }

inductive PState where
  | idle
  | moving
  | strafing
  | jumping
  | hanging
  | falling
  deriving Repr, DecidableEq

/-- The `isGrounded` query of `PlayerStateMachine`. -/
def PState.isGrounded : PState → Bool
  | .idle => true
  | .moving => true
  | .strafing => true
  | _ => false

/-- `PlayerStateMachine` fields (`hangTarget` is the grabbed vine's
`grabHeight`). -/
structure SMSt where
  state : PState
  z : ℚ
  vz : ℚ
  landSquash : ℚ
  hangTarget : Option ℚ
  hangTimer : ℚ
  hangLerpTarget : ℚ
  lastSafeX : ℚ
  lastSafeY : ℚ
  gapFallTimer : ℚ
  gapFalling : Bool
  gapFallAlpha : ℚ
  fallStartZ : ℚ
  deriving Repr, DecidableEq

/-- Constants from `JUMP` (src/js/constants.js). -/
def jumpGravity : ℚ := 800
def landSquashDurationC : ℚ := 1/10

/-- Embedding of `PlayerStateMachine.enterHanging(vine)` (the caller
returns immediately afterwards, so `player.z` is not re-synced on this
path). -/
def enterHanging (grabHeight : ℚ) (sm : SMSt) : SMSt :=
  { sm with state := .hanging, hangTarget := some grabHeight,
            hangTimer := 3, hangLerpTarget := grabHeight, vz := 0 }

/-- The tail of `PlayerStateMachine.update`: the hanging branch (`bob`
stands for the wall-clock term `Math.sin(performance.now() / 300) * 2`,
passed in as an oracle input), the landing-squash decay, and the final
`player.z` sync. -/
def smFinish (dt bob : ℚ) (p : PlayerM) (sm : SMSt) : PlayerM × SMSt :=
  let sm :=
    if sm.state = .hanging then
      let diff := sm.hangLerpTarget - sm.z
      let sm :=
        if |diff| > 1/2 then { sm with z := sm.z + diff * 15 * dt }
        else { sm with z := sm.hangTarget.getD 0 + bob }
      let t := sm.hangTimer - dt
      if t ≤ 0 then
        { sm with hangTimer := t, fallStartZ := sm.z, hangTarget := none,
                  state := .falling, vz := 0 }
      else { sm with hangTimer := t }
    else sm
  let sm :=
    if sm.landSquash > 0 then
      let t := sm.landSquash - dt
      { sm with landSquash := if t < 0 then 0 else t }
    else sm
  ({ p with z := sm.z }, sm)

/-- First statement of `PlayerStateMachine.update`: track the last safe
position while grounded and not over a gap. -/
def trackLastSafe (gapAt : ℚ → ℚ → ℚ → Bool) (p : PlayerM) (sm : SMSt) :
    SMSt :=
  if sm.state.isGrounded && !(gapAt p.x p.y p.radius) then
    { sm with lastSafeX := p.x, lastSafeY := p.y }
  else sm

/-- Second statement of `PlayerStateMachine.update`: refresh the grounded
state (idle/moving/strafing) from the movement input. -/
def updateGroundState (mx my : ℚ) (strafe : Bool) (sm : SMSt) : SMSt :=
  if sm.state.isGrounded then
    { sm with state :=
        if mx ≠ 0 ∨ my ≠ 0 then (if strafe then .strafing else .moving)
        else .idle }
  else sm

/-- The gap-fall sub-branch of `PlayerStateMachine.update` (fade timer,
then respawn at the last safe position, 15-damage penalty through
`takeDamage`, 1.0 s recovery invulnerability, reset to idle). -/
def gapFallBranch (dt : ℚ) (p : PlayerM) (sm : SMSt) : PlayerM × SMSt :=
  let timer := sm.gapFallTimer - dt
  if timer ≤ 0 then
    let p := { p with x := sm.lastSafeX, y := sm.lastSafeY }
    let p := p.takeDamage 15
    let p := { p with invulnTimer := 1 }
    let sm := { sm with gapFallTimer := timer, z := 0, vz := 0,
                        gapFalling := false, gapFallAlpha := 1,
                        state := .idle }
    ({ p with z := 0 }, sm)
  else
    let sm := { sm with gapFallTimer := timer,
                        gapFallAlpha := max 0 (timer / (1/2)) }
    ({ p with z := sm.z }, sm)

/-- The airborne (non-gap-fall) sub-branch of `PlayerStateMachine.update`:
gravity with terminal-velocity cap, peak tracking, vine grab, landing with
fall damage above the 80 threshold. -/
def airborneBranch (dt : ℚ) (vineAt : ℚ → ℚ → ℚ → ℚ → Option ℚ)
    (bob : ℚ) (p : PlayerM) (sm : SMSt) : PlayerM × SMSt :=
  let vz := max (sm.vz - jumpGravity * dt) (-600)
  let z := sm.z + vz * dt
  let fs :=
    if sm.state = .jumping ∧ vz < 0 ∧ z > sm.fallStartZ then z
    else sm.fallStartZ
  let sm2 := { sm with vz := vz, z := z, fallStartZ := fs }
  match (if vz ≤ 0 then vineAt p.x p.y p.radius z else none) with
  | some grabHeight => (p, enterHanging grabHeight sm2)
  | none =>
      if z ≤ 0 then
        let p := if fs > 80 then p.takeDamage ((fs - 80) * (3/10)) else p
        let sm3 := { sm2 with z := 0, vz := 0,
                              landSquash := landSquashDurationC,
                              fallStartZ := 0, state := .idle }
        smFinish dt bob p sm3
      else smFinish dt bob p sm2

/-- Embedding of `PlayerStateMachine.update(dt, moveInput, isStrafing,
world)` (src/js/playerState.js lines 106-220).  The world oracle is the
pair `gapAt` / `vineAt` (a present world; the claims' scenarios all run
with one).  Early `return`s in the source become direct results. -/
def smUpdate (dt mx my : ℚ) (strafe : Bool)
    (gapAt : ℚ → ℚ → ℚ → Bool) (vineAt : ℚ → ℚ → ℚ → ℚ → Option ℚ)
    (bob : ℚ) (p : PlayerM) (sm : SMSt) : PlayerM × SMSt :=
  let sm := trackLastSafe gapAt p sm
  let sm := updateGroundState mx my strafe sm
  if sm.state = .jumping ∨ sm.state = .falling then
    if sm.gapFalling then gapFallBranch dt p sm
    else airborneBranch dt vineAt bob p sm
  else smFinish dt bob p sm

theorem trackLastSafe_not_grounded (gapAt : ℚ → ℚ → ℚ → Bool)
    (p : PlayerM) (sm : SMSt) (h : sm.state.isGrounded = false) :
    trackLastSafe gapAt p sm = sm := by
  simp [trackLastSafe, h]

theorem updateGroundState_not_grounded (mx my : ℚ) (strafe : Bool)
    (sm : SMSt) (h : sm.state.isGrounded = false) :
    updateGroundState mx my strafe sm = sm := by
  simp [updateGroundState, h]

/-! ## Knockback debuff dynamics (src/js/enemy.js lines 78-81 and 97-107)

`applyKnockback` accumulates impulses; each `Enemy.update` frame moves the
enemy by the knockback velocity, multiplies it by `Math.pow(0.05, dt)` and
snaps each component to 0 once its magnitude drops below 1.  `Math.pow`
with a fractional exponent is real-valued, so this model lives over `ℝ`
(and is therefore noncomputable — the claims about it are proved, not
evaluated). -/

structure KnockSt where
  x : ℝ
  y : ℝ
  kvx : ℝ
  kvy : ℝ

open Classical in
/-- Embedding of `Enemy.applyKnockback(dx, dy, force)`: the impulse is
added to (never substituted for) the current knockback velocity. -/
noncomputable def applyKnockback (dx dy force : ℝ) (s : KnockSt) : KnockSt :=
  { s with kvx := s.kvx + dx * force, kvy := s.kvy + dy * force }

open Classical in
/-- Embedding of the knockback block of `Enemy.update(dt)`: skipped when
both components are exactly 0; otherwise integrate position, decay by
`0.05 ^ dt` and snap small components to 0. -/
noncomputable def knockTick (dt : ℚ) (s : KnockSt) : KnockSt :=
  if s.kvx ≠ 0 ∨ s.kvy ≠ 0 then
    let x := s.x + s.kvx * (dt : ℝ)
    let y := s.y + s.kvy * (dt : ℝ)
    let decay : ℝ := (1/20 : ℝ) ^ (dt : ℝ)
    let kvx := s.kvx * decay
    let kvy := s.kvy * decay
    { x := x, y := y,
      kvx := if |kvx| < 1 then 0 else kvx,
      kvy := if |kvy| < 1 then 0 else kvy }
  else s

/-- Iterated knockback frames. -/
noncomputable def knockRun (dts : List ℚ) (s : KnockSt) : KnockSt :=
  match dts with
  | [] => s
  | dt :: rest => knockRun rest (knockTick dt s)

/-- Sums of the nonempty prefixes of a frame-time list: the elapsed times
at which the knockback decay has been applied. -/
def prefixSums : List ℚ → List ℚ
  | [] => []
  | d :: rest => d :: (prefixSums rest).map (fun t => d + t)

/-! ## Theorems -/

/-- C10: `Player.takeDamage(amount)` is a no-op (hp and all other player
state unchanged) while the invulnerability timer is positive; otherwise hp
decreases by `amount * (1 - defense)` clamped below at 0, every other
field except the invulnerability timer is unchanged, and a fresh 0.3 s
invulnerability window starts; hp never becomes negative. -/
theorem player_takeDamage_spec (p : PlayerM) (amount : ℚ) :
    (p.invulnTimer > 0 → p.takeDamage amount = p) ∧
    (p.invulnTimer ≤ 0 →
      (p.takeDamage amount).hp = max 0 (p.hp - amount * (1 - p.defense)) ∧
      (p.takeDamage amount).invulnTimer = 3/10 ∧
      (p.takeDamage amount).x = p.x ∧ (p.takeDamage amount).y = p.y ∧
      (p.takeDamage amount).radius = p.radius ∧
      (p.takeDamage amount).defense = p.defense ∧
      (p.takeDamage amount).z = p.z) ∧
    (0 ≤ p.hp → 0 ≤ (p.takeDamage amount).hp) := by
  have hb : ∀ v : ℚ, (if v < 0 then (0 : ℚ) else v) = max 0 v := by
    intro v
    rcases lt_or_le v 0 with h | h
    · simp [h, max_eq_left (le_of_lt h)]
    · simp [not_lt.mpr h, max_eq_right h]
  refine ⟨fun h => by simp [PlayerM.takeDamage, h], fun h => ?_, fun h => ?_⟩
  · have hng : ¬ p.invulnTimer > 0 := not_lt.mpr h
    simp [PlayerM.takeDamage, hng, hb]
    rcases lt_or_le p.hp (amount * (1 - p.defense)) with h2 | h2
    · rw [if_pos h2, max_eq_left (by linarith)]
    · rw [if_neg (not_lt.mpr h2), max_eq_right (by linarith)]
  · by_cases hi : p.invulnTimer > 0
    · simpa [PlayerM.takeDamage, hi] using h
    · simp only [PlayerM.takeDamage, hi, if_false]
      simp
      split_ifs with h2
      · exact le_refl 0
      · linarith [not_lt.mp h2]

/-- Witness for `player_takeDamage_spec`: a vulnerable player at 100 hp
with no defense hit for 30 ends at 70 hp. -/
theorem player_takeDamage_spec_witness :
    (PlayerM.mk 0 0 14 100 0 0 0).takeDamage 30
      = PlayerM.mk 0 0 14 70 (3/10) 0 0 := by
  have h := (player_takeDamage_spec (PlayerM.mk 0 0 14 100 0 0 0) 30).2.1
    (by norm_num)
  obtain ⟨h1, h2, h3, h4, h5, h6, h7⟩ := h
  have hmax : max (0 : ℚ) (100 - 30 * (1 - 0)) = 70 := by norm_num
  rw [hmax] at h1
  cases hval : (PlayerM.mk 0 0 14 100 0 0 0).takeDamage 30
  simp_all

/-- C2: each resource-gated cast (Fighter wind spell, Mage frost ring and
meteor, Celestial minor heal) is check-then-deduct atomic: with mana below
the cost the cast leaves the whole state unchanged (no deduction, no
submission); off cooldown with mana at least the cost it deducts exactly
the cost (wind 1, frost ring 1, meteor 2, minor heal 2) and submits its
effect (heal submits nothing, by design); mana never goes below zero. -/
theorem mana_gated_casts_atomic (s : CastSt) :
    (s.mp < 1 → castWind s = s) ∧
    (1 ≤ s.mp → (castWind s).mp = s.mp - 1 ∧ (castWind s).subs = s.subs + 1) ∧
    (s.mp < 1 → castFrostRing s = s) ∧
    (s.frostRingCooldown ≤ 0 → 1 ≤ s.mp →
      (castFrostRing s).mp = s.mp - 1 ∧ (castFrostRing s).subs = s.subs + 1) ∧
    (s.mp < 2 → castMeteor s = s) ∧
    (s.meteorCooldown ≤ 0 → 2 ≤ s.mp →
      (castMeteor s).mp = s.mp - 2 ∧ (castMeteor s).subs = s.subs + 1) ∧
    (s.mp < 2 → castMinorHeal s = s) ∧
    (s.healCooldown ≤ 0 → 2 ≤ s.mp → (castMinorHeal s).mp = s.mp - 2) ∧
    (0 ≤ s.mp → 0 ≤ (castWind s).mp ∧ 0 ≤ (castFrostRing s).mp ∧
      0 ≤ (castMeteor s).mp ∧ 0 ≤ (castMinorHeal s).mp) := by
  unfold castWind castFrostRing castMeteor castMinorHeal canSpendMp spendMp
  refine ⟨?_, ?_, ?_, ?_, ?_, ?_, ?_, ?_, ?_⟩ <;> intros <;>
    split_ifs <;> simp_all <;> linarith

/-- Witness for `mana_gated_casts_atomic`: with 5 mana and all cooldowns
at 0, the wind spell leaves 4, the frost ring 4, the meteor 3, and the
minor heal 3. -/
theorem mana_gated_casts_atomic_witness :
    (castWind (CastSt.mk 5 100 100 0 0 false 0 0)).mp = 4 ∧
    (castFrostRing (CastSt.mk 5 100 100 0 0 false 0 0)).mp = 4 ∧
    (castMeteor (CastSt.mk 5 100 100 0 0 false 0 0)).mp = 3 ∧
    (castMinorHeal (CastSt.mk 5 100 100 0 0 false 0 0)).mp = 3 := by
  have h := mana_gated_casts_atomic (CastSt.mk 5 100 100 0 0 false 0 0)
  refine ⟨?_, ?_, ?_, ?_⟩
  · have := (h.2.1 (by norm_num)).1
    rw [this]; norm_num
  · have := ((h.2.2.2.1) (by norm_num) (by norm_num)).1
    rw [this]; norm_num
  · have := ((h.2.2.2.2.2.1) (by norm_num) (by norm_num)).1
    rw [this]; norm_num
  · have := (h.2.2.2.2.2.2.2.1) (by norm_num) (by norm_num)
    rw [this]; norm_num

/-- C6: `DodgeSystem.execute` is a no-op whenever the shared cooldown is
positive or a roll or backstep is in progress; from a ready state (with a
resolvable direction) a second immediate `execute` is a no-op, so two
back-to-back calls produce exactly one motion start (and hence one
invulnerability application); and neither `execute` nor `update` can make
the roll-active and backstep-active flags both true. -/
theorem dodge_execute_exclusive (et : EvadeType) (mvx mvy fx fy : ℚ)
    (dt : ℚ) (s : DodgeSt) :
    ((s.cooldown > 0 ∨ s.active = true ∨ s.backstepActive = true) →
      execute et mvx mvy fx fy s = s) ∧
    (s.cooldown ≤ 0 → s.active = false → s.backstepActive = false →
      ¬(fx = 0 ∧ fy = 0) →
      execute et mvx mvy fx fy (execute et mvx mvy fx fy s)
          = execute et mvx mvy fx fy s ∧
      (execute et mvx mvy fx fy s).triggers = s.triggers + 1) ∧
    (¬(s.active = true ∧ s.backstepActive = true) →
      ¬((execute et mvx mvy fx fy s).active = true ∧
        (execute et mvx mvy fx fy s).backstepActive = true) ∧
      ¬((dodgeUpdate dt s).active = true ∧
        (dodgeUpdate dt s).backstepActive = true)) := by
  refine ⟨?_, ?_, ?_⟩
  · intro h
    unfold execute
    rcases h with h | h | h <;> simp [h]
  · intro hc ha hb hf
    unfold execute triggerRoll triggerBlink triggerBackstep
    unfold rollCooldownC blinkCooldownC backstepCooldownC
    have hnc : ¬ s.cooldown > 0 := not_lt.mpr hc
    by_cases hmv : mvx ≠ 0 ∨ mvy ≠ 0
    · have hmz : ¬ (mvx = 0 ∧ mvy = 0) := by tauto
      cases et <;> simp [hnc, ha, hb, hmv, hmz]
    · have hmz : mvx = 0 ∧ mvy = 0 := by tauto
      simp [hnc, ha, hb, hmv, hmz, hf]
  · intro h
    constructor
    · unfold execute triggerRoll triggerBlink triggerBackstep
      split_ifs <;>
        first
          | (simpa using h)
          | (cases et <;> simp_all)
    · unfold dodgeUpdate
      rcases Bool.eq_false_or_eq_true s.active with ha | ha <;>
        rcases Bool.eq_false_or_eq_true s.backstepActive with hb | hb <;>
          split_ifs <;> simp_all

/-- Witness for `dodge_execute_exclusive`: from a fresh ready state with
facing (1,0) and move input (1,0), a fighter roll double-execute triggers
exactly once. -/
theorem dodge_execute_exclusive_witness :
    (execute .roll 1 0 1 0 (DodgeSt.mk 0 0 false 0 false 0 0 0)).triggers = 1 := by
  have h := (dodge_execute_exclusive .roll 1 0 1 0 1
    (DodgeSt.mk 0 0 false 0 false 0 0 0)).2.1
    (by norm_num) rfl rfl (by norm_num)
  simpa using h.2

/-- Concrete scenario refuting C3's claimed order: a meteor in its impact
phase whose timer expires this frame, overlapping a live enemy. -/
def cexEnemy : EnemyM := ⟨0, 0, 0, 10, 50, false, 0, 1, 0, 0, 0⟩

/-- Concrete effect for the C3 counterexample (see `cexEnemy`). -/
def cexMeteor : Effect := .meteor 0 0 80 80 (3/2) (1/20) true (3/10) [] true

/-- C3 counterexample: the engine culls effects whose alive flag went
false during the advance phase *before* running hit tests.  A meteor in
impact phase with 0.05 s left, stepped by dt = 0.1 s while overlapping a
live enemy, dies in step (a), is removed, and the overlapping enemy's
`takeDamage` is never invoked — whereas under the order the claim states
(advance, hit-test, then drop) the enemy would be struck this frame. -/
theorem engine_order_cex :
    (engineUpdate (1/10) [cexEnemy] [cexMeteor]).2.map EnemyM.hits = [0] ∧
    (engineUpdate (1/10) [cexEnemy] [cexMeteor]).1 = [] ∧
    Effect.aliveB (Effect.update (1/10) cexMeteor) = false ∧
    distLtB (dist2 0 0 cexEnemy.x cexEnemy.y) (80 + cexEnemy.radius) = true ∧
    (engineUpdateSpecOrder (1/10) [cexEnemy] [cexMeteor]).2.map EnemyM.hits
      = [1] := by
  norm_num [engineUpdate, engineUpdateSpecOrder, Effect.update, Effect.aliveB,
    checkHits, checkHit, meteorScan, distLtB, distGtB, dist2, cexEnemy,
    cexMeteor, EnemyM.takeDamage]

/-- C3 (amended): one `EffectEngine.update` call performs (a) advance of
every effect, then drops effects whose alive flag has gone false, then
runs hit tests against the enemy roster — so an effect whose alive flag
turned false during (a) is removed *before* hit tests and inflicts no
damage that frame (shown for the two variants whose alive flag can drop
during (a) while overlap holds: an impact-phase meteor and a projectile
at end of lifetime). -/
theorem engine_update_drops_dead_before_hit_tests (dt : ℚ)
    (enemies : List EnemyM) :
    (∀ x y dmg r delay timer itm ids, timer ≤ dt →
      engineUpdate dt enemies [.meteor x y dmg r delay timer true itm ids true]
        = ([], enemies)) ∧
    (∀ x y vx vy dmg r life maxLife ids, life ≤ dt →
      engineUpdate dt enemies
          [.projectile x y vx vy dmg r life maxLife ids true]
        = ([], enemies)) := by
  constructor
  · intro x y dmg r delay timer itm ids h
    have h2 : timer - dt ≤ 0 := by linarith
    simp [engineUpdate, Effect.update, Effect.aliveB, checkHits, h2]
  · intro x y vx vy dmg r life maxLife ids h
    have h2 : life - dt ≤ 0 := by linarith
    simp [engineUpdate, Effect.update, Effect.aliveB, checkHits, h2]

/-- Witness for `engine_update_drops_dead_before_hit_tests`: the concrete
dying meteor of the counterexample is dropped with the roster untouched. -/
theorem engine_update_drops_dead_before_hit_tests_witness :
    engineUpdate (1/10) [cexEnemy] [cexMeteor] = ([], [cexEnemy]) :=
  (engine_update_drops_dead_before_hit_tests (1/10) [cexEnemy]).1
    0 0 80 80 (3/2) (1/20) (3/10) [] (by norm_num)

/-- Player state for the C7 counterexample: an invulnerability window
(0.5 s) is still running when the pit-fall fade completes — reachable by
falling into a gap again directly after a pit-fall respawn, whose 1.0 s
recovery window outlasts the 0.5 s fall fade. -/
def cexGapP : PlayerM := ⟨0, 0, 14, 100, 1/2, 0, 0⟩

/-- State machine for the C7 counterexample: gap-falling, fade timer about
to expire, last safe position (200, 300). -/
def cexGapSM : SMSt :=
  ⟨.falling, 0, 0, 0, none, 0, 0, 200, 300, 1/10, true, 1/5, 0⟩

/-- C7 counterexample: when the pit-fall fade timer reaches zero while the
player is still invulnerable, the respawn/teleport/idle transition all
happen but the fixed damage penalty does *not* reach the player's hp
(`takeDamage` is a no-op during i-frames), refuting the claim that a
damage penalty is applied to hp on every pit-fall completion. -/
theorem gap_fall_damage_cex :
    cexGapSM.gapFalling = true ∧ cexGapSM.gapFallTimer ≤ 1/10 ∧
    cexGapP.hp = 100 ∧ cexGapP.invulnTimer > 0 ∧
    (smUpdate (1/10) 0 0 false (fun _ _ _ => false) (fun _ _ _ _ => none) 0
        cexGapP cexGapSM).1.hp = 100 ∧
    (smUpdate (1/10) 0 0 false (fun _ _ _ => false) (fun _ _ _ _ => none) 0
        cexGapP cexGapSM).1.x = 200 ∧
    (smUpdate (1/10) 0 0 false (fun _ _ _ => false) (fun _ _ _ _ => none) 0
        cexGapP cexGapSM).2.state = .idle := by
  refine ⟨rfl, le_refl _, rfl, by norm_num [cexGapP], ?_, ?_, ?_⟩ <;>
    norm_num [smUpdate, trackLastSafe, updateGroundState, gapFallBranch,
      PState.isGrounded, PlayerM.takeDamage, cexGapP, cexGapSM]

/-- C7 (amended): whenever the pit-fall fade timer reaches zero, the
player is teleported to the last recorded safe grounded position, the
fixed 15-damage penalty is routed through the standard `takeDamage`
pipeline (reduced by defense and skipped entirely while an invulnerability
window is still active), a 1.0 s recovery invulnerability window is
granted, height and vertical velocity are reset to zero, and the state
machine returns to idle. -/
theorem gap_fall_completion_spec (dt mx my : ℚ) (strafe : Bool)
    (gapAt : ℚ → ℚ → ℚ → Bool) (vineAt : ℚ → ℚ → ℚ → ℚ → Option ℚ)
    (bob : ℚ) (p : PlayerM) (sm : SMSt)
    (hst : sm.state = .jumping ∨ sm.state = .falling)
    (hgap : sm.gapFalling = true) (ht : sm.gapFallTimer ≤ dt) :
    (smUpdate dt mx my strafe gapAt vineAt bob p sm).1.x = sm.lastSafeX ∧
    (smUpdate dt mx my strafe gapAt vineAt bob p sm).1.y = sm.lastSafeY ∧
    (smUpdate dt mx my strafe gapAt vineAt bob p sm).1.hp
      = (p.takeDamage 15).hp ∧
    (smUpdate dt mx my strafe gapAt vineAt bob p sm).1.invulnTimer = 1 ∧
    (smUpdate dt mx my strafe gapAt vineAt bob p sm).1.z = 0 ∧
    (smUpdate dt mx my strafe gapAt vineAt bob p sm).2.z = 0 ∧
    (smUpdate dt mx my strafe gapAt vineAt bob p sm).2.vz = 0 ∧
    (smUpdate dt mx my strafe gapAt vineAt bob p sm).2.state = .idle ∧
    (smUpdate dt mx my strafe gapAt vineAt bob p sm).2.gapFalling = false := by
  have ht2 : sm.gapFallTimer - dt ≤ 0 := by linarith
  have hg : sm.state.isGrounded = false := by
    rcases hst with h | h <;> simp [h, PState.isGrounded]
  rcases hst with h | h <;>
    simp [smUpdate, trackLastSafe_not_grounded _ _ _ hg,
      updateGroundState_not_grounded _ _ _ _ hg, h, hgap, gapFallBranch,
      ht2, PlayerM.takeDamage] <;>
    split_ifs <;> simp

/-- Witness for `gap_fall_completion_spec`: a vulnerable player (100 hp,
no defense) completing a pit fall ends at 85 hp, teleported to the last
safe position, idle, with a 1.0 s recovery window. -/
theorem gap_fall_completion_spec_witness :
    (smUpdate (1/10) 0 0 false (fun _ _ _ => false) (fun _ _ _ _ => none) 0
        (PlayerM.mk 0 0 14 100 0 0 0) cexGapSM).1.hp = 85 ∧
    (smUpdate (1/10) 0 0 false (fun _ _ _ => false) (fun _ _ _ _ => none) 0
        (PlayerM.mk 0 0 14 100 0 0 0) cexGapSM).1.x = 200 ∧
    (smUpdate (1/10) 0 0 false (fun _ _ _ => false) (fun _ _ _ _ => none) 0
        (PlayerM.mk 0 0 14 100 0 0 0) cexGapSM).1.invulnTimer = 1 := by
  have h := gap_fall_completion_spec (1/10) 0 0 false
    (fun _ _ _ => false) (fun _ _ _ _ => none) 0
    (PlayerM.mk 0 0 14 100 0 0 0) cexGapSM
    (Or.inr rfl) rfl (by norm_num [cexGapSM])
  refine ⟨?_, h.1, h.2.2.2.1⟩
  have hhp := h.2.2.1
  rw [hhp]
  norm_num [PlayerM.takeDamage]

/-- C8: on a landing frame (height integrating to 0 or below while
jumping or falling, no vine grab, no pit-fall in progress), height and
vertical velocity are clamped to zero and the state returns to idle; a
tracked peak height at or below the 80 threshold routes zero fall damage,
while a peak above 80 routes damage `(peak - 80) * 0.3` through the
`takeDamage` pipeline (so a peak of 180 = threshold + 100 routes
`100 * 0.3 = 30`). -/
theorem landing_fall_damage_spec (dt mx my : ℚ) (strafe : Bool)
    (gapAt : ℚ → ℚ → ℚ → Bool) (vineAt : ℚ → ℚ → ℚ → ℚ → Option ℚ)
    (bob : ℚ) (p : PlayerM) (sm : SMSt)
    (hst : sm.state = .jumping ∨ sm.state = .falling)
    (hgap : sm.gapFalling = false)
    (hvine : ∀ z, vineAt p.x p.y p.radius z = none)
    (hfs : 0 ≤ sm.fallStartZ)
    (hland : sm.z + max (sm.vz - jumpGravity * dt) (-600) * dt ≤ 0) :
    (smUpdate dt mx my strafe gapAt vineAt bob p sm).2.z = 0 ∧
    (smUpdate dt mx my strafe gapAt vineAt bob p sm).2.vz = 0 ∧
    (smUpdate dt mx my strafe gapAt vineAt bob p sm).2.state = .idle ∧
    (smUpdate dt mx my strafe gapAt vineAt bob p sm).2.fallStartZ = 0 ∧
    (smUpdate dt mx my strafe gapAt vineAt bob p sm).1.z = 0 ∧
    (smUpdate dt mx my strafe gapAt vineAt bob p sm).1.hp
      = (if sm.fallStartZ > 80
         then (p.takeDamage ((sm.fallStartZ - 80) * (3/10))).hp
         else p.hp) := by
  have hg : sm.state.isGrounded = false := by
    rcases hst with h | h <;> simp [h, PState.isGrounded]
  have hpeak : ¬ (sm.state = PState.jumping ∧
      max (sm.vz - jumpGravity * dt) (-600) < 0 ∧
      sm.z + max (sm.vz - jumpGravity * dt) (-600) * dt > sm.fallStartZ) := by
    rintro ⟨_, _, hz⟩
    linarith
  rcases hst with h | h <;>
    simp [smUpdate, trackLastSafe_not_grounded _ _ _ hg,
      updateGroundState_not_grounded _ _ _ _ hg, h, hgap, airborneBranch,
      hpeak, hvine, hland, smFinish, landSquashDurationC] <;>
    split_ifs <;> simp_all

/-- The recorded chain segments of a `lightningArc` effect. -/
def Effect.chainsOf : Effect → List Chain
  | .lightningArc _ ch _ => ch
  | _ => []

theorem nearestScan_some_bound (cx cy range : ℚ) (hs : List ℕ) :
    ∀ (l : List EnemyM) (i : ℕ) (best : Option (ℕ × ℚ)) (j : ℕ) (d2 : ℚ),
      nearestScan cx cy range hs l i best = some (j, d2) →
      best = some (j, d2) ∨ j < i + l.length := by
  intro l
  induction l with
  | nil => intro i best j d2 h; simp [nearestScan] at h; simp [h]
  | cons e rest ih =>
      intro i best j d2 h
      simp only [nearestScan] at h
      split_ifs at h with h1 h2
      · rcases ih (i + 1) best j d2 h with h3 | h3
        · exact Or.inl h3
        · right; simp [List.length_cons]; omega
      · rcases ih (i + 1) (some (i, dist2 cx cy e.x e.y)) j d2 h with h3 | h3
        · right
          have h4 : i = j := by
            simp only [Option.some.injEq, Prod.mk.injEq] at h3
            exact h3.1
          simp [List.length_cons]; omega
        · right; simp [List.length_cons]; omega
      · rcases ih (i + 1) best j d2 h with h3 | h3
        · exact Or.inl h3
        · right; simp [List.length_cons]; omega

theorem buildChain_length_le (decay range : ℚ) :
    ∀ (fuel : ℕ) (cx cy dmg : ℚ) (hs : List ℕ) (ens : List EnemyM),
      (buildChain decay range fuel cx cy dmg hs ens).chains.length ≤ fuel := by
  intro fuel
  induction fuel with
  | zero => intro cx cy dmg hs ens; simp [buildChain]
  | succ n ih =>
      intro cx cy dmg hs ens
      simp only [buildChain]
      cases hsc : nearestScan cx cy range hs ens 0 none with
      | none => simp
      | some pr =>
          obtain ⟨i, d2⟩ := pr
          cases hget : ens[i]? with
          | none => simp [hget]
          | some e =>
              simp only [hget]
              simpa using ih e.x e.y (dmg * decay) (e.id :: hs)
                (ens.set i (e.takeDamage dmg))

theorem buildChain_damage_geometric (decay range : ℚ) :
    ∀ (fuel : ℕ) (cx cy dmg : ℚ) (hs : List ℕ) (ens : List EnemyM),
      (buildChain decay range fuel cx cy dmg hs ens).chains.map Chain.damage
        = (List.range
            (buildChain decay range fuel cx cy dmg hs ens).chains.length).map
            (fun i => dmg * decay ^ i) := by
  intro fuel
  induction fuel with
  | zero => intro cx cy dmg hs ens; simp [buildChain]
  | succ n ih =>
      intro cx cy dmg hs ens
      simp only [buildChain]
      cases hsc : nearestScan cx cy range hs ens 0 none with
      | none => simp
      | some pr =>
          obtain ⟨i, d2⟩ := pr
          cases hget : ens[i]? with
          | none => simp [hget]
          | some e =>
              simp only [hget, List.map_cons, List.length_cons,
                List.range_succ_eq_map, List.map_map]
              rw [pow_zero, mul_one]
              congr 1
              rw [ih e.x e.y (dmg * decay) (e.id :: hs)
                (ens.set i (e.takeDamage dmg))]
              refine List.map_congr_left ?_
              intro a _
              simp only [Function.comp_apply, pow_succ]
              ring

theorem chain'_lt_geom (decay : ℚ) (h0 : 0 < decay) (h1 : decay < 1) :
    ∀ (n : ℕ) (dmg : ℚ), 0 < dmg →
      List.Chain' (fun a b => b < a)
        ((List.range n).map (fun i => dmg * decay ^ i)) := by
  intro n
  induction n with
  | zero => intro dmg _; simp
  | succ m ih =>
      intro dmg hd
      rw [List.range_succ_eq_map, List.map_cons, List.map_map]
      have hmap : (List.range m).map ((fun i => dmg * decay ^ i) ∘ Nat.succ)
          = (List.range m).map (fun i => (dmg * decay) * decay ^ i) := by
        refine List.map_congr_left ?_
        intro a _
        simp [Function.comp, pow_succ]
        ring
      rw [hmap]
      refine List.chain'_cons'.mpr ⟨?_, ih (dmg * decay) (by positivity)⟩
      intro b hb
      cases m with
      | zero => simp at hb
      | succ k =>
          rw [List.range_succ_eq_map, List.map_cons] at hb
          simp only [List.head?_cons, Option.mem_def, Option.some.injEq] at hb
          subst hb
          simp only [pow_zero, mul_one]
          nlinarith

theorem buildChain_stop (decay range : ℚ) :
    ∀ (fuel : ℕ) (cx cy dmg : ℚ) (hs : List ℕ) (ens : List EnemyM),
      (buildChain decay range fuel cx cy dmg hs ens).chains.length < fuel →
      nearestScan (buildChain decay range fuel cx cy dmg hs ens).cx
          (buildChain decay range fuel cx cy dmg hs ens).cy range
          (buildChain decay range fuel cx cy dmg hs ens).hitSet
          (buildChain decay range fuel cx cy dmg hs ens).enemies 0 none
        = none := by
  intro fuel
  induction fuel with
  | zero => intro cx cy dmg hs ens h; omega
  | succ n ih =>
      intro cx cy dmg hs ens
      simp only [buildChain]
      cases hsc : nearestScan cx cy range hs ens 0 none with
      | none => intro _; simpa using hsc
      | some pr =>
          obtain ⟨i, d2⟩ := pr
          cases hget : ens[i]? with
          | none =>
              exfalso
              rcases nearestScan_some_bound cx cy range hs ens 0 none i d2 hsc
                with h3 | h3
              · simp at h3
              · rw [List.getElem?_eq_getElem (by omega)] at hget
                simp at hget
          | some e =>
              simp only [hget]
              intro hlen
              simp only [List.length_cons] at hlen
              exact ih e.x e.y (dmg * decay) (e.id :: hs)
                (ens.set i (e.takeDamage dmg)) (by omega)

theorem lightningArc_inert (dt : ℚ) (ens : List EnemyM) (t : ℚ)
    (ch : List Chain) (al : Bool) :
    (engineUpdate dt ens [Effect.lightningArc t ch al]).2 = ens := by
  simp only [engineUpdate, List.map_cons, List.map_nil, Effect.update]
  by_cases h : t - dt ≤ 0 <;>
    cases al <;>
      simp [h, Effect.aliveB, checkHits, checkHit, List.filter]

/-- Enemy roster for the C4 counterexample: four live enemies in a line at
distances 50 apart, all within the 200-unit chain range. -/
def cexRoster : List EnemyM :=
  [⟨10, 50, 0, 10, 100, false, 0, 1, 0, 0, 0⟩,
   ⟨11, 100, 0, 10, 100, false, 0, 1, 0, 0, 0⟩,
   ⟨12, 150, 0, 10, 100, false, 0, 1, 0, 0, 0⟩,
   ⟨13, 200, 0, 10, 100, false, 0, 1, 0, 0, 0⟩]

/-- C4 counterexample: `_buildChain` iterates `i < maxChains + 1` times,
so with `chainCount = 3` (the Mage lightning configuration) and four
chainable enemies the constructed effect records 4 hops, not the claimed
maximum of `chainCount` hops. -/
theorem lightning_chain_count_cex :
    (mkLightningArc 0 0 30 3 (7/10) 200 cexRoster).1.chainsOf.length = 4 := by
  norm_num [mkLightningArc, buildChain, nearestScan, distLtB, dist2,
    EnemyM.takeDamage, Effect.chainsOf, cexRoster, List.set]

/-- C4 (amended): the lightning chain resolves all damage eagerly at
construction; the recorded per-hop damage sequence equals
`baseDamage * decay^i` for hop index `i` and is strictly decreasing (for
`0 < baseDamage` and `0 < decay < 1`); the chain stops after at most
`chainCount + 1` hops (the loop runs `maxChains + 1` times, so the
parameter counts the jumps after the initial hit) or as soon as no
further in-range un-hit live enemy exists; and after construction the
engine performs no hit-testing for the effect (the roster is untouched by
its frames). -/
theorem lightning_chain_spec (x y dmg : ℚ) (chainCount : ℕ)
    (decay range : ℚ) (enemies : List EnemyM) :
    ((mkLightningArc x y dmg chainCount decay range enemies).1.chainsOf.map
        Chain.damage
      = (List.range
          (mkLightningArc x y dmg chainCount decay range
            enemies).1.chainsOf.length).map (fun i => dmg * decay ^ i)) ∧
    (0 < dmg → 0 < decay → decay < 1 →
      List.Chain' (fun a b => b < a)
        ((mkLightningArc x y dmg chainCount decay range enemies).1.chainsOf.map
          Chain.damage)) ∧
    (mkLightningArc x y dmg chainCount decay range
      enemies).1.chainsOf.length ≤ chainCount + 1 ∧
    ((mkLightningArc x y dmg chainCount decay range
        enemies).1.chainsOf.length < chainCount + 1 →
      nearestScan (buildChain decay range (chainCount + 1) x y dmg [] enemies).cx
          (buildChain decay range (chainCount + 1) x y dmg [] enemies).cy range
          (buildChain decay range (chainCount + 1) x y dmg [] enemies).hitSet
          (buildChain decay range (chainCount + 1) x y dmg [] enemies).enemies
          0 none = none) ∧
    (∀ dt ens t ch al,
      (engineUpdate dt ens [Effect.lightningArc t ch al]).2 = ens) := by
  have hch : (mkLightningArc x y dmg chainCount decay range enemies).1.chainsOf
      = (buildChain decay range (chainCount + 1) x y dmg [] enemies).chains := by
    simp [mkLightningArc, Effect.chainsOf]
  refine ⟨?_, ?_, ?_, ?_, ?_⟩
  · rw [hch]
    exact buildChain_damage_geometric decay range (chainCount + 1) x y dmg []
      enemies
  · intro hd h0 h1
    rw [hch, buildChain_damage_geometric decay range (chainCount + 1) x y dmg []
      enemies]
    exact chain'_lt_geom decay h0 h1 _ dmg hd
  · rw [hch]
    exact buildChain_length_le decay range (chainCount + 1) x y dmg [] enemies
  · rw [hch]
    exact buildChain_stop decay range (chainCount + 1) x y dmg [] enemies
  · exact fun dt ens t ch al => lightningArc_inert dt ens t ch al

/-- Witness for `lightning_chain_spec`: the concrete Mage configuration
(base 30, decay 0.7, range 200, chainCount 3) on the four-enemy roster
yields a strictly decreasing recorded damage sequence. -/
theorem lightning_chain_spec_witness :
    List.Chain' (fun a b => b < a)
      ((mkLightningArc 0 0 30 3 (7/10) 200 cexRoster).1.chainsOf.map
        Chain.damage) :=
  (lightning_chain_spec 0 0 30 3 (7/10) 200 cexRoster).2.1
    (by norm_num) (by norm_num) (by norm_num)

/-- Witness for `landing_fall_damage_spec`: landing with tracked peak 180
(threshold + 100) costs a vulnerable, defenseless player exactly
`100 * 0.3 = 30` hp; the machine ends idle at height 0. -/
theorem landing_fall_damage_spec_witness :
    (smUpdate (1/10) 0 0 false (fun _ _ _ => false) (fun _ _ _ _ => none) 0
        (PlayerM.mk 0 0 14 100 0 0 5)
        (SMSt.mk .jumping 5 (-600) 0 none 0 0 0 0 0 false 1 180)).1.hp
      = 70 ∧
    (smUpdate (1/10) 0 0 false (fun _ _ _ => false) (fun _ _ _ _ => none) 0
        (PlayerM.mk 0 0 14 100 0 0 5)
        (SMSt.mk .jumping 5 (-600) 0 none 0 0 0 0 0 false 1 180)).2.state
      = .idle := by
  have h := landing_fall_damage_spec (1/10) 0 0 false
    (fun _ _ _ => false) (fun _ _ _ _ => none) 0
    (PlayerM.mk 0 0 14 100 0 0 5)
    (SMSt.mk .jumping 5 (-600) 0 none 0 0 0 0 0 false 1 180)
    (Or.inl rfl) rfl (fun _ => rfl) (by norm_num) (by norm_num [jumpGravity])
  refine ⟨?_, h.2.2.1⟩
  have hhp := h.2.2.2.2.2
  rw [hhp]
  norm_num [PlayerM.takeDamage]

theorem distLtB_sq (d t : ℚ) (hd : 0 ≤ d) :
    distLtB (d ^ 2) t = true ↔ d < t := by
  unfold distLtB
  simp only [Bool.and_eq_true, decide_eq_true_eq]
  constructor
  · rintro ⟨ht, hlt⟩
    by_contra hcon
    push_neg at hcon
    nlinarith
  · intro h
    have ht : 0 ≤ t := hd.trans h.le
    exact ⟨ht, by nlinarith⟩

theorem distGtB_sq (d t : ℚ) (hd : 0 ≤ d) :
    distGtB (d ^ 2) t = true ↔ t < d := by
  unfold distGtB
  simp only [Bool.or_eq_true, decide_eq_true_eq]
  constructor
  · rintro (ht | hlt)
    · exact lt_of_lt_of_le ht hd
    · by_contra hcon
      push_neg at hcon
      have ht0 : 0 ≤ t := hd.trans hcon
      nlinarith
  · intro h
    rcases lt_or_le t 0 with ht | ht
    · exact Or.inl ht
    · exact Or.inr (by nlinarith)

/-- Canonical shape of one engine frame acting on a single expanding-ring
effect (radius `r`, hit ids `ids`) and a single enemy: advance the radius,
die at `maxRadius` (culled before any hit test), otherwise run the annulus
hit test with the per-kind debuff `extra`.  The nova / frost ring / pulse
step equations below prove `engineUpdate` literally takes this shape. -/
def ringStepForm (effOf : ℚ → List ℕ → Effect) (extra : EnemyM → EnemyM)
    (cx cy dmg maxR spd dt : ℚ) (e : EnemyM) (r : ℚ) (ids : List ℕ) :
    List Effect × List EnemyM :=
  if r + spd * dt ≥ maxR then ([], [e])
  else if e.dead || ids.contains e.id then ([effOf (r + spd * dt) ids], [e])
  else if distLtB (dist2 cx cy e.x e.y) (r + spd * dt + e.radius) &&
          distGtB (dist2 cx cy e.x e.y) (r + spd * dt - 25) then
    ([effOf (r + spd * dt) (e.id :: ids)], [extra (e.takeDamage dmg)])
  else ([effOf (r + spd * dt) ids], [e])

theorem nova_step_eq (x y dmg maxR spd dt : ℚ) (e : EnemyM) (r : ℚ)
    (ids : List ℕ) :
    engineUpdate dt [e] [.nova x y dmg maxR spd r ids true]
      = ringStepForm (fun r2 ids2 => .nova x y dmg maxR spd r2 ids2 true) id
          x y dmg maxR spd dt e r ids := by
  simp only [engineUpdate, ringStepForm, List.map_cons, List.map_nil,
    Effect.update]
  by_cases hr : r + spd * dt ≥ maxR
  · rw [if_pos hr, if_pos hr]
    simp [Effect.aliveB, checkHits, List.filter]
  · rw [if_neg hr, if_neg hr]
    simp only [Effect.aliveB, List.filter_cons, List.filter_nil, if_true,
      checkHits, checkHit, ringScan]
    split_ifs <;> simp_all

theorem frost_step_eq (x y dmg maxR spd sf sd dt : ℚ) (e : EnemyM) (r : ℚ)
    (ids : List ℕ) :
    engineUpdate dt [e] [.frostRing x y dmg maxR spd sf sd r ids true]
      = ringStepForm
          (fun r2 ids2 => .frostRing x y dmg maxR spd sf sd r2 ids2 true)
          (fun e2 => e2.applySlow sf sd) x y dmg maxR spd dt e r ids := by
  simp only [engineUpdate, ringStepForm, List.map_cons, List.map_nil,
    Effect.update]
  by_cases hr : r + spd * dt ≥ maxR
  · rw [if_pos hr, if_pos hr]
    simp [Effect.aliveB, checkHits, List.filter]
  · rw [if_neg hr, if_neg hr]
    simp only [Effect.aliveB, List.filter_cons, List.filter_nil, if_true,
      checkHits, checkHit, ringScan]
    split_ifs <;> simp_all

theorem pulse_step_eq (x y dmg maxR spd kb dt : ℚ) (e : EnemyM) (r : ℚ)
    (ids : List ℕ) :
    engineUpdate dt [e] [.pulse x y dmg maxR spd kb r ids true]
      = ringStepForm
          (fun r2 ids2 => .pulse x y dmg maxR spd kb r2 ids2 true)
          (fun e2 => if kb ≠ 0 then e2.recordKnockback else e2)
          x y dmg maxR spd dt e r ids := by
  simp only [engineUpdate, ringStepForm, List.map_cons, List.map_nil,
    Effect.update]
  by_cases hr : r + spd * dt ≥ maxR
  · rw [if_pos hr, if_pos hr]
    simp [Effect.aliveB, checkHits, List.filter]
  · rw [if_neg hr, if_neg hr]
    simp only [Effect.aliveB, List.filter_cons, List.filter_nil, if_true,
      checkHits, checkHit, ringScan]
    split_ifs <;> simp_all

/-- Invariant for a single expanding ring against a single stationary live
enemy at distance `d` from the ring origin, after total elapsed time `T`:
either the hit has not happened yet (alive ring, empty hit set, radius
`10 + spd*T` still below `maxRadius`, and the enemy either untouched ahead
of the edge or the ring still at its initial radius), or the enemy has
been struck exactly once (its id is in the hit set; the ring may since
have expired and been culled). -/
def RingInv (effOf : ℚ → List ℕ → Effect) (maxR spd : ℚ) (e₀ : EnemyM)
    (d T : ℚ) (st : List Effect × List EnemyM) : Prop :=
  (st = ([effOf (10 + spd * T) []], [e₀]) ∧ 10 + spd * T < maxR ∧
    (10 + spd * T ≤ d - e₀.radius ∨ T = 0))
  ∨ (∃ e1 : EnemyM, st.2 = [e1] ∧ e1.id = e₀.id ∧ e1.x = e₀.x ∧
      e1.y = e₀.y ∧ e1.radius = e₀.radius ∧ e1.hits = 1 ∧
      (st.1 = [] ∨
        (st.1 = [effOf (10 + spd * T) [e₀.id]] ∧ 10 + spd * T < maxR)))

theorem ring_run_aux (effOf : ℚ → List ℕ → Effect) (extra : EnemyM → EnemyM)
    (cx cy dmg maxR spd : ℚ) (e₀ : EnemyM) (d : ℚ)
    (hstep : ∀ (dt : ℚ) (e : EnemyM) (r : ℚ) (ids : List ℕ),
      engineUpdate dt [e] [effOf r ids]
        = ringStepForm effOf extra cx cy dmg maxR spd dt e r ids)
    (hextra : ∀ e : EnemyM, (extra e).id = e.id ∧ (extra e).x = e.x ∧
      (extra e).y = e.y ∧ (extra e).radius = e.radius ∧
      (extra e).hits = e.hits)
    (hd2 : d ^ 2 = dist2 cx cy e₀.x e₀.y) (hd0 : 0 ≤ d)
    (hlive : e₀.dead = false) (hhits : e₀.hits = 0)
    (h10 : 10 < d) (hdmax : d < maxR) (heR : 0 < e₀.radius) :
    ∀ (dts : List ℚ),
      (∀ δ ∈ dts, 0 < δ ∧ spd * δ ≤ 25 ∧ spd * δ ≤ e₀.radius ∧
        spd * δ < maxR - 10) →
      ∀ (T : ℚ) (st : List Effect × List EnemyM),
        RingInv effOf maxR spd e₀ d T st →
        RingInv effOf maxR spd e₀ d (T + dts.sum) (engineRun dts st) := by
  intro dts
  induction dts with
  | nil =>
      intro _ T st hinv
      simpa [engineRun] using hinv
  | cons δ rest ih =>
      intro hsteps T st hinv
      have hδ := hsteps δ (by simp)
      have hrest : ∀ a ∈ rest, 0 < a ∧ spd * a ≤ 25 ∧ spd * a ≤ e₀.radius ∧
          spd * a < maxR - 10 := fun a ha => hsteps a (by simp [ha])
      have hsum : T + (δ :: rest).sum = (T + δ) + rest.sum := by
        rw [List.sum_cons]
        ring
      rw [hsum]
      show RingInv effOf maxR spd e₀ d ((T + δ) + rest.sum)
        (engineRun rest (engineUpdate δ st.2 st.1))
      refine ih hrest (T + δ) _ ?_
      have hrad : 10 + spd * T + spd * δ = 10 + spd * (T + δ) := by ring
      rcases hinv with ⟨hA, hAr, hAarm⟩ | ⟨e1, hB2, hBid, hBx, hBy, hBr, hBh, hB1⟩
      · subst hA
        rw [hstep]
        unfold ringStepForm
        have hnr : ¬ (10 + spd * T + spd * δ ≥ maxR) := by
          push_neg
          rcases hAarm with harm | harm
          · have h1 : spd * δ ≤ e₀.radius := hδ.2.2.1
            linarith
          · subst harm
            have h2 : spd * δ < maxR - 10 := hδ.2.2.2
            simp only [mul_zero, add_zero]
            linarith
        rw [if_neg hnr]
        rw [if_neg (by simp [hlive])]
        have hlt_iff : distLtB (dist2 cx cy e₀.x e₀.y)
            (10 + spd * T + spd * δ + e₀.radius) = true
            ↔ d < 10 + spd * T + spd * δ + e₀.radius := by
          rw [← hd2]
          exact distLtB_sq d _ hd0
        have hgt_iff : distGtB (dist2 cx cy e₀.x e₀.y)
            (10 + spd * T + spd * δ - 25) = true
            ↔ 10 + spd * T + spd * δ - 25 < d := by
          rw [← hd2]
          exact distGtB_sq d _ hd0
        by_cases hhit : d < 10 + spd * T + spd * δ + e₀.radius ∧
            10 + spd * T + spd * δ - 25 < d
        · have hb : (distLtB (dist2 cx cy e₀.x e₀.y)
              (10 + spd * T + spd * δ + e₀.radius) &&
              distGtB (dist2 cx cy e₀.x e₀.y)
              (10 + spd * T + spd * δ - 25)) = true := by
            rw [Bool.and_eq_true]
            exact ⟨hlt_iff.mpr hhit.1, hgt_iff.mpr hhit.2⟩
          rw [if_pos hb]
          right
          refine ⟨extra (e₀.takeDamage dmg), rfl, ?_, ?_, ?_, ?_, ?_,
            Or.inr ⟨?_, ?_⟩⟩
          · rw [(hextra _).1]
            simp [EnemyM.takeDamage]
          · rw [(hextra _).2.1]
            simp [EnemyM.takeDamage]
          · rw [(hextra _).2.2.1]
            simp [EnemyM.takeDamage]
          · rw [(hextra _).2.2.2.1]
            simp [EnemyM.takeDamage]
          · rw [(hextra _).2.2.2.2]
            simp [EnemyM.takeDamage, hhits]
          · rw [hrad]
          · rw [← hrad]
            push_neg at hnr
            exact hnr
        · have hb : ¬ ((distLtB (dist2 cx cy e₀.x e₀.y)
              (10 + spd * T + spd * δ + e₀.radius) &&
              distGtB (dist2 cx cy e₀.x e₀.y)
              (10 + spd * T + spd * δ - 25)) = true) := by
            rw [Bool.and_eq_true]
            intro hcon
            exact hhit ⟨hlt_iff.mp hcon.1, hgt_iff.mp hcon.2⟩
          rw [if_neg hb]
          left
          refine ⟨by rw [hrad], by rw [← hrad]; push_neg at hnr; exact hnr,
            Or.inl ?_⟩
          rw [← hrad]
          rcases not_and_or.mp hhit with hcon | hcon
          · push_neg at hcon
            linarith
          · exfalso
            push_neg at hcon
            rcases hAarm with harm | harm
            · have h1 : spd * δ ≤ e₀.radius := hδ.2.2.1
              linarith
            · subst harm
              have h2 : spd * δ ≤ 25 := hδ.2.1
              simp only [mul_zero, add_zero] at hcon
              linarith
      · rcases hB1 with hBempty | ⟨hBeff, hBrad⟩
        · have hupd : engineUpdate δ st.2 st.1 = ([], st.2) := by
            rw [hBempty]
            rfl
          rw [hupd, hB2]
          right
          exact ⟨e1, rfl, hBid, hBx, hBy, hBr, hBh, Or.inl rfl⟩
        · rw [hBeff, hB2, hstep]
          unfold ringStepForm
          by_cases hr : 10 + spd * T + spd * δ ≥ maxR
          · rw [if_pos hr]
            right
            exact ⟨e1, rfl, hBid, hBx, hBy, hBr, hBh, Or.inl rfl⟩
          · rw [if_neg hr]
            have hcont : (e1.dead || List.contains [e₀.id] e1.id) = true := by
              simp [hBid]
            rw [if_pos hcont]
            right
            refine ⟨e1, rfl, hBid, hBx, hBy, hBr, hBh, Or.inr ⟨?_, ?_⟩⟩
            · rw [hrad]
            · rw [← hrad]
              push_neg at hr
              exact hr

/-- C1: a stationary live enemy whose distance `d` from the ring origin
lies strictly between the starting radius 10 and the maximum radius is
struck by its `takeDamage` mutator exactly once over an expanding ring's
full lifetime, for each of the three ring effects (nova, frost ring,
pulse), advanced across any sequence of sufficiently small frame steps
(`expandSpeed * δ` at most 25 and at most the enemy radius, and below
`maxRadius - 10`) whose total advance reaches the maximum radius; the
expired ring is culled. -/
theorem ring_effect_hits_stationary_enemy_exactly_once
    (x y dmg maxR spd sf sd kb : ℚ) (e₀ : EnemyM) (d : ℚ) (dts : List ℚ)
    (hd2 : d ^ 2 = dist2 x y e₀.x e₀.y) (hd0 : 0 ≤ d)
    (hlive : e₀.dead = false) (hhits : e₀.hits = 0)
    (h10 : 10 < d) (hdmax : d < maxR) (heR : 0 < e₀.radius)
    (hsteps : ∀ δ ∈ dts, 0 < δ ∧ spd * δ ≤ 25 ∧ spd * δ ≤ e₀.radius ∧
      spd * δ < maxR - 10)
    (htotal : maxR - 10 ≤ spd * dts.sum) :
    ((engineRun dts ([mkNova x y dmg maxR spd], [e₀])).1 = [] ∧
      (engineRun dts ([mkNova x y dmg maxR spd], [e₀])).2.map EnemyM.hits
        = [1]) ∧
    ((engineRun dts ([mkFrostRing x y dmg maxR spd sf sd], [e₀])).1 = [] ∧
      (engineRun dts
        ([mkFrostRing x y dmg maxR spd sf sd], [e₀])).2.map EnemyM.hits
        = [1]) ∧
    ((engineRun dts ([mkPulse x y dmg maxR spd kb], [e₀])).1 = [] ∧
      (engineRun dts ([mkPulse x y dmg maxR spd kb], [e₀])).2.map EnemyM.hits
        = [1]) := by
  have hfinal : ∀ (effOf : ℚ → List ℕ → Effect)
      (st : List Effect × List EnemyM),
      RingInv effOf maxR spd e₀ d (0 + dts.sum) st →
      st.1 = [] ∧ st.2.map EnemyM.hits = [1] := by
    intro effOf st hinv
    rcases hinv with ⟨_, hAr, _⟩ | ⟨e1, hB2, _, _, _, _, hBh, hB1⟩
    · exfalso
      rw [zero_add] at hAr
      linarith
    · rcases hB1 with hBempty | ⟨_, hBrad⟩
      · rw [hB2, hBempty]
        simp [hBh]
      · exfalso
        rw [zero_add] at hBrad
        linarith
  have hinit : ∀ (effOf : ℚ → List ℕ → Effect),
      RingInv effOf maxR spd e₀ d 0 ([effOf 10 []], [e₀]) := by
    intro effOf
    left
    refine ⟨?_, ?_, Or.inr rfl⟩
    · rw [show (10 : ℚ) + spd * 0 = 10 by ring]
    · rw [show (10 : ℚ) + spd * 0 = 10 by ring]
      linarith
  refine ⟨?_, ?_, ?_⟩
  · refine hfinal _ _ (ring_run_aux
      (fun r2 ids2 => .nova x y dmg maxR spd r2 ids2 true) id
      x y dmg maxR spd e₀ d
      (fun dt e r ids => nova_step_eq x y dmg maxR spd dt e r ids)
      (fun e => ⟨rfl, rfl, rfl, rfl, rfl⟩)
      hd2 hd0 hlive hhits h10 hdmax heR dts hsteps 0 _ (hinit _))
  · refine hfinal _ _ (ring_run_aux
      (fun r2 ids2 => .frostRing x y dmg maxR spd sf sd r2 ids2 true)
      (fun e2 => e2.applySlow sf sd)
      x y dmg maxR spd e₀ d
      (fun dt e r ids => frost_step_eq x y dmg maxR spd sf sd dt e r ids)
      (fun e => ⟨rfl, rfl, rfl, rfl, rfl⟩)
      hd2 hd0 hlive hhits h10 hdmax heR dts hsteps 0 _ (hinit _))
  · refine hfinal _ _ (ring_run_aux
      (fun r2 ids2 => .pulse x y dmg maxR spd kb r2 ids2 true)
      (fun e2 => if kb ≠ 0 then e2.recordKnockback else e2)
      x y dmg maxR spd e₀ d
      (fun dt e r ids => pulse_step_eq x y dmg maxR spd kb dt e r ids)
      (fun e => by
        split_ifs <;> exact ⟨rfl, rfl, rfl, rfl, rfl⟩)
      hd2 hd0 hlive hhits h10 hdmax heR dts hsteps 0 _ (hinit _))

/-- Witness for `ring_effect_hits_stationary_enemy_exactly_once`: a nova /
frost ring / pulse with maximum radius 60 expanding at 10 per second,
stepped five times at 1 s, strikes a live enemy of radius 10 standing at
distance 40 exactly once for each ring kind. -/
theorem ring_effect_hits_stationary_enemy_exactly_once_witness :
    ((engineRun [1, 1, 1, 1, 1] ([mkNova 0 0 35 60 10],
        [EnemyM.mk 0 40 0 10 100 false 0 1 0 0 0])).2.map EnemyM.hits
      = [1]) ∧
    ((engineRun [1, 1, 1, 1, 1] ([mkFrostRing 0 0 35 60 10 (1/2) 3],
        [EnemyM.mk 0 40 0 10 100 false 0 1 0 0 0])).2.map EnemyM.hits
      = [1]) ∧
    ((engineRun [1, 1, 1, 1, 1] ([mkPulse 0 0 35 60 10 150],
        [EnemyM.mk 0 40 0 10 100 false 0 1 0 0 0])).2.map EnemyM.hits
      = [1]) := by
  have h := ring_effect_hits_stationary_enemy_exactly_once
    0 0 35 60 10 (1/2) 3 150 (EnemyM.mk 0 40 0 10 100 false 0 1 0 0 0)
    40 [1, 1, 1, 1, 1]
    (by norm_num [dist2]) (by norm_num) rfl rfl (by norm_num) (by norm_num)
    (by norm_num)
    (by
      intro a ha
      simp only [List.mem_cons, List.not_mem_nil, or_false] at ha
      rcases ha with rfl | rfl | rfl | rfl | rfl <;> norm_num)
    (by norm_num)
  exact ⟨h.1.2, h.2.1.2, h.2.2.2⟩

/-- C9: `applyKnockback` adds impulses onto the current knockback velocity
(never replaces it); each component snaps to exactly zero once the decayed
magnitude falls below the epsilon of 1; and above the snap threshold the
per-frame multiplication by `0.05 ^ dt` composes so that any splitting of a
total elapsed time into frame steps yields the same factor
`0.05 ^ (total)` — frame-rate-independent decay. -/
theorem knockback_decay_spec :
    (∀ (s : KnockSt) (dx dy force : ℝ),
      (applyKnockback dx dy force s).kvx = s.kvx + dx * force ∧
      (applyKnockback dx dy force s).kvy = s.kvy + dy * force) ∧
    (∀ (s : KnockSt) (dt : ℚ), (s.kvx ≠ 0 ∨ s.kvy ≠ 0) →
      |s.kvx * (1/20 : ℝ) ^ (dt : ℝ)| < 1 → (knockTick dt s).kvx = 0) ∧
    (∀ (dts : List ℚ) (s : KnockSt),
      (∀ t ∈ prefixSums dts,
        1 ≤ |s.kvx| * (1/20 : ℝ) ^ (t : ℝ) ∧
        (s.kvy = 0 ∨ 1 ≤ |s.kvy| * (1/20 : ℝ) ^ (t : ℝ))) →
      (knockRun dts s).kvx = s.kvx * (1/20 : ℝ) ^ ((dts.sum : ℚ) : ℝ) ∧
      (knockRun dts s).kvy = s.kvy * (1/20 : ℝ) ^ ((dts.sum : ℚ) : ℝ)) := by
  have hbase : (0 : ℝ) < 1/20 := by norm_num
  refine ⟨?_, ?_, ?_⟩
  · intro s dx dy force
    exact ⟨rfl, rfl⟩
  · intro s dt hnz hlt
    unfold knockTick
    rw [if_pos hnz]
    dsimp only
    rw [if_pos hlt]
  · intro dts
    induction dts with
    | nil =>
        intro s _
        simp [knockRun, Real.rpow_zero]
    | cons d rest ih =>
        intro s h
        have hd := h d (by simp [prefixSums])
        have hfd : (0 : ℝ) < (1/20 : ℝ) ^ ((d : ℚ) : ℝ) :=
          Real.rpow_pos_of_pos hbase _
        have hkx : s.kvx ≠ 0 := by
          intro h0
          rw [h0] at hd
          simp at hd
          linarith [hd.1]
        have habs : |s.kvx * (1/20 : ℝ) ^ ((d : ℚ) : ℝ)|
            = |s.kvx| * (1/20 : ℝ) ^ ((d : ℚ) : ℝ) := by
          rw [abs_mul, abs_of_pos hfd]
        have hnosnapx : ¬ |s.kvx * (1/20 : ℝ) ^ ((d : ℚ) : ℝ)| < 1 := by
          rw [habs]
          exact not_lt.mpr hd.1
        have hticky : (knockTick d s).kvy = s.kvy * (1/20 : ℝ) ^ ((d : ℚ) : ℝ) := by
          rcases hd.2 with hy0 | hy1
          · unfold knockTick
            rw [if_pos (Or.inl hkx)]
            dsimp only
            rw [hy0]
            simp
          · have habsy : |s.kvy * (1/20 : ℝ) ^ ((d : ℚ) : ℝ)|
                = |s.kvy| * (1/20 : ℝ) ^ ((d : ℚ) : ℝ) := by
              rw [abs_mul, abs_of_pos hfd]
            have hns : ¬ |s.kvy * (1/20 : ℝ) ^ ((d : ℚ) : ℝ)| < 1 := by
              rw [habsy]
              exact not_lt.mpr hy1
            unfold knockTick
            rw [if_pos (Or.inl hkx)]
            dsimp only
            rw [if_neg hns]
        have htickx : (knockTick d s).kvx = s.kvx * (1/20 : ℝ) ^ ((d : ℚ) : ℝ) := by
          unfold knockTick
          rw [if_pos (Or.inl hkx)]
          dsimp only
          rw [if_neg hnosnapx]
        have hstep : ∀ t ∈ prefixSums rest,
            1 ≤ |(knockTick d s).kvx| * (1/20 : ℝ) ^ (t : ℝ) ∧
            ((knockTick d s).kvy = 0 ∨
              1 ≤ |(knockTick d s).kvy| * (1/20 : ℝ) ^ (t : ℝ)) := by
          intro t ht
          have hmem : (d + t) ∈ prefixSums (d :: rest) := by
            simp only [prefixSums, List.mem_cons, List.mem_map]
            right
            exact ⟨t, ht, rfl⟩
          have hdt := h (d + t) hmem
          have hcast : (((d + t : ℚ)) : ℝ) = ((d : ℚ) : ℝ) + ((t : ℚ) : ℝ) := by
            push_cast
            ring
          have hsplit : (1/20 : ℝ) ^ (((d + t : ℚ)) : ℝ)
              = (1/20 : ℝ) ^ ((d : ℚ) : ℝ) * (1/20 : ℝ) ^ ((t : ℚ) : ℝ) := by
            rw [hcast, Real.rpow_add hbase]
          constructor
          · rw [htickx, abs_mul, abs_of_pos hfd, mul_assoc, ← hsplit]
            exact hdt.1
          · rcases hd.2 with hy0 | hyd
            · left
              rw [hticky, hy0, zero_mul]
            · right
              rw [hticky, abs_mul, abs_of_pos hfd, mul_assoc, ← hsplit]
              rcases hdt.2 with hy0 | hy1
              · exfalso
                rw [hy0] at hyd
                simp at hyd
                linarith
              · exact hy1
        have hrec := ih (knockTick d s) hstep
        have hsum : (((d :: rest).sum : ℚ) : ℝ)
            = ((d : ℚ) : ℝ) + ((rest.sum : ℚ) : ℝ) := by
          push_cast [List.sum_cons]
          ring
        constructor
        · show (knockRun rest (knockTick d s)).kvx = _
          rw [hrec.1, htickx, hsum, Real.rpow_add hbase, mul_assoc]
        · show (knockRun rest (knockTick d s)).kvy = _
          rw [hrec.2, hticky, hsum, Real.rpow_add hbase, mul_assoc]

theorem meleeRun_cons (P : MeleeParams) (dt d : ℚ) (rest : List (ℚ × ℚ))
    (s : MeleeSt) (cyc : ℕ) :
    meleeRun P ((dt, d) :: rest) s cyc
      = meleeRun P rest (meleeStep P dt d s).1
          (if s.phase = .chase ∧ (meleeStep P dt d s).1.phase = .windup then 0
           else if (meleeStep P dt d s).2 then cyc + 1 else cyc) := rfl

theorem meleeStep_chase (P : MeleeParams) (dt d tm cd : ℚ) :
    meleeStep P dt d ⟨.chase, tm, cd⟩
      = (if d < P.attackRange + P.playerRadius + P.enemyRadius ∧
            max 0 (cd - dt) ≤ 0
         then (⟨.windup, P.windupTime, max 0 (cd - dt)⟩, false)
         else (⟨.chase, tm, max 0 (cd - dt)⟩, false)) := by
  simp [meleeStep]

theorem meleeStep_windup (P : MeleeParams) (dt d tm cd : ℚ) :
    meleeStep P dt d ⟨.windup, tm, cd⟩
      = (if tm - dt ≤ 0 then (⟨.attack, 1/10, max 0 (cd - dt)⟩, false)
         else (⟨.windup, tm - dt, max 0 (cd - dt)⟩, false)) := by
  simp [meleeStep]

theorem meleeStep_attack (P : MeleeParams) (dt d tm cd : ℚ) :
    meleeStep P dt d ⟨.attack, tm, cd⟩
      = (if tm - dt ≤ 0
         then (⟨.recovery, P.recoveryTime, P.attackCooldown⟩,
               decide (d < P.attackRange + P.playerRadius + P.enemyRadius + 10))
         else (⟨.attack, tm - dt, max 0 (cd - dt)⟩, false)) := by
  simp [meleeStep]

theorem meleeStep_recovery (P : MeleeParams) (dt d tm cd : ℚ) :
    meleeStep P dt d ⟨.recovery, tm, cd⟩
      = (if tm - dt ≤ 0 then (⟨.chase, tm - dt, max 0 (cd - dt)⟩, false)
         else (⟨.recovery, tm - dt, max 0 (cd - dt)⟩, false)) := by
  simp [meleeStep]

theorem meleeRun_cycle_aux (P : MeleeParams) :
    ∀ (inputs : List (ℚ × ℚ)),
      (∀ i ∈ inputs,
        i.2 < P.attackRange + P.playerRadius + P.enemyRadius + 10) →
      ∀ (s : MeleeSt) (cyc : ℕ),
        cyc = (if s.phase = .recovery ∨ s.phase = .chase then 1 else 0) →
        (meleeRun P inputs s cyc).2
          = (if (meleeRun P inputs s cyc).1.phase = .recovery ∨
                (meleeRun P inputs s cyc).1.phase = .chase
             then 1 else 0) := by
  intro inputs
  induction inputs with
  | nil =>
      intro _ s cyc hinv
      simpa [meleeRun] using hinv
  | cons a rest ih =>
      intro hin s cyc hinv
      obtain ⟨dt, d⟩ := a
      have hd : d < P.attackRange + P.playerRadius + P.enemyRadius + 10 :=
        hin (dt, d) (by simp)
      have hrest : ∀ i ∈ rest,
          i.2 < P.attackRange + P.playerRadius + P.enemyRadius + 10 :=
        fun i hi => hin i (by simp [hi])
      obtain ⟨ph, tm, cd⟩ := s
      rw [meleeRun_cons]
      cases ph with
      | chase =>
          have hc : cyc = 1 := by simpa using hinv
          subst hc
          rw [meleeStep_chase]
          by_cases h1 : d < P.attackRange + P.playerRadius + P.enemyRadius ∧
              max 0 (cd - dt) ≤ 0
          · rw [if_pos h1]
            simp only []
            rw [if_pos (by simp)]
            exact ih hrest _ _ (by simp)
          · rw [if_neg h1]
            simp only []
            rw [if_neg (by simp), if_neg (by simp)]
            exact ih hrest _ _ (by simp)
      | windup =>
          have hc : cyc = 0 := by simpa using hinv
          subst hc
          rw [meleeStep_windup]
          by_cases h1 : tm - dt ≤ 0
          · rw [if_pos h1]
            simp only []
            rw [if_neg (by simp), if_neg (by simp)]
            exact ih hrest _ _ (by simp)
          · rw [if_neg h1]
            simp only []
            rw [if_neg (by simp), if_neg (by simp)]
            exact ih hrest _ _ (by simp)
      | attack =>
          have hc : cyc = 0 := by simpa using hinv
          subst hc
          rw [meleeStep_attack]
          by_cases h1 : tm - dt ≤ 0
          · rw [if_pos h1]
            simp only []
            rw [if_neg (by simp)]
            rw [if_pos (by simpa using hd)]
            exact ih hrest _ _ (by simp)
          · rw [if_neg h1]
            simp only []
            rw [if_neg (by simp), if_neg (by simp)]
            exact ih hrest _ _ (by simp)
      | recovery =>
          have hc : cyc = 1 := by simpa using hinv
          subst hc
          rw [meleeStep_recovery]
          by_cases h1 : tm - dt ≤ 0
          · rw [if_pos h1]
            simp only []
            rw [if_neg (by simp), if_neg (by simp)]
            exact ih hrest _ _ (by simp)
          · rw [if_neg h1]
            simp only []
            rw [if_neg (by simp), if_neg (by simp)]
            exact ih hrest _ _ (by simp)

/-- C5: the melee enemy FSM steps through
chase → windup → attack → recovery → chase; `player.takeDamage` is never
invoked from the chase, windup or recovery phases; from the attack phase
it is invoked exactly when the attack window expires with the player
within attack range plus the +10 tolerance, after which the phase is
recovery; and over any run that starts a windup with the player staying
inside the tolerance range, the damage count of that cycle is exactly 1
once the cycle reaches recovery (or chase), and 0 while still winding
up/attacking — never more. -/
theorem melee_damage_once_per_cycle (P : MeleeParams) :
    (∀ (dt d : ℚ) (s : MeleeSt), s.phase ≠ .attack →
      (meleeStep P dt d s).2 = false) ∧
    (∀ (dt d : ℚ) (s : MeleeSt), s.phase = .attack →
      ((meleeStep P dt d s).2 = true ↔
        s.timer - dt ≤ 0 ∧
          d < P.attackRange + P.playerRadius + P.enemyRadius + 10) ∧
      ((meleeStep P dt d s).2 = true →
        (meleeStep P dt d s).1.phase = .recovery)) ∧
    (∀ (dt d : ℚ) (s : MeleeSt),
      (s.phase = .chase → (meleeStep P dt d s).1.phase = .chase ∨
        (meleeStep P dt d s).1.phase = .windup) ∧
      (s.phase = .windup → (meleeStep P dt d s).1.phase = .windup ∨
        (meleeStep P dt d s).1.phase = .attack) ∧
      (s.phase = .attack → (meleeStep P dt d s).1.phase = .attack ∨
        (meleeStep P dt d s).1.phase = .recovery) ∧
      (s.phase = .recovery → (meleeStep P dt d s).1.phase = .recovery ∨
        (meleeStep P dt d s).1.phase = .chase)) ∧
    (∀ (inputs : List (ℚ × ℚ)) (w c : ℚ),
      (∀ i ∈ inputs,
        i.2 < P.attackRange + P.playerRadius + P.enemyRadius + 10) →
      (meleeRun P inputs ⟨.windup, w, c⟩ 0).2
        = (if (meleeRun P inputs ⟨.windup, w, c⟩ 0).1.phase = .recovery ∨
              (meleeRun P inputs ⟨.windup, w, c⟩ 0).1.phase = .chase
           then 1 else 0)) := by
  refine ⟨?_, ?_, ?_, ?_⟩
  · intro dt d s h
    obtain ⟨ph, tm, cd⟩ := s
    cases ph
    · rw [meleeStep_chase]; split_ifs <;> rfl
    · rw [meleeStep_windup]; split_ifs <;> rfl
    · exact absurd rfl h
    · rw [meleeStep_recovery]; split_ifs <;> rfl
  · intro dt d s h
    obtain ⟨ph, tm, cd⟩ := s
    cases ph <;> simp_all
    rw [meleeStep_attack]
    constructor
    · split_ifs with h1
      · simp [sub_nonpos.mp h1]
      · have h2 : ¬ tm ≤ dt := fun hh => h1 (by linarith)
        simp [h2]
    · intro hhit
      split_ifs at hhit ⊢
      simp_all
  · intro dt d s
    obtain ⟨ph, tm, cd⟩ := s
    refine ⟨?_, ?_, ?_, ?_⟩ <;> intro h <;> cases ph <;> simp_all
    · rw [meleeStep_chase]; split_ifs <;> simp
    · rw [meleeStep_windup]; split_ifs <;> simp
    · rw [meleeStep_attack]; split_ifs <;> simp
    · rw [meleeStep_recovery]; split_ifs <;> simp
  · intro inputs w c hin
    exact meleeRun_cycle_aux P inputs hin ⟨.windup, w, c⟩ 0 (by simp)

/-- Witness for `melee_damage_once_per_cycle`: a shambler-parameter enemy
(range 50, windup 0.4 s, recovery 0.5 s, cooldown 1.2 s, radii 14/12)
starting a windup against a player standing at distance 40, stepped 10
times at 0.1 s, completes the cycle back to chase with exactly one damage
application. -/
theorem melee_damage_once_per_cycle_witness :
    (meleeRun (MeleeParams.mk 50 (2/5) (1/2) (6/5) 14 12)
        (List.replicate 10 (1/10, 40)) (MeleeSt.mk .windup (2/5) 0) 0).2 = 1 ∧
    (meleeRun (MeleeParams.mk 50 (2/5) (1/2) (6/5) 14 12)
        (List.replicate 10 (1/10, 40)) (MeleeSt.mk .windup (2/5) 0) 0).1.phase
      = .chase := by
  have hphase : (meleeRun (MeleeParams.mk 50 (2/5) (1/2) (6/5) 14 12)
      (List.replicate 10 (1/10, 40)) (MeleeSt.mk .windup (2/5) 0) 0).1.phase
      = .chase := by
    norm_num [meleeRun, meleeStep, List.replicate]
  have h := (melee_damage_once_per_cycle
      (MeleeParams.mk 50 (2/5) (1/2) (6/5) 14 12)).2.2.2
    (List.replicate 10 (1/10, 40)) (2/5) 0
    (by intro i hi; simp only [List.eq_of_mem_replicate hi]; norm_num)
  rw [hphase] at h
  simp only [if_pos (Or.inr rfl)] at h
  exact ⟨h, hphase⟩

/-- Witness for `knockback_decay_spec`: an impulse of 1000 decayed over
two 1-second frames (no snap along the way) composes to
`1000 * 0.05 ^ 2 = 5/2`. -/
theorem knockback_decay_spec_witness :
    (knockRun [1, 1] (KnockSt.mk 0 0 1000 0)).kvx = 5/2 := by
  have hone : ((1 : ℚ) : ℝ) = (1 : ℝ) := by norm_num
  have hp1 : (1/20 : ℝ) ^ ((1 : ℚ) : ℝ) = 1/20 := by
    rw [hone, Real.rpow_one]
  have hp2 : (1/20 : ℝ) ^ ((2 : ℚ) : ℝ) = 1/400 := by
    have h2 : ((2 : ℚ) : ℝ) = ((2 : ℕ) : ℝ) := by norm_num
    rw [h2, Real.rpow_natCast]
    norm_num
  have h := (knockback_decay_spec).2.2 [1, 1] (KnockSt.mk 0 0 1000 0) ?_
  · rw [h.1]
    have hsum : (([1, 1] : List ℚ).sum : ℚ) = 2 := by norm_num
    rw [hsum, hp2]
    norm_num
  · intro t ht
    have ht2 : t = 1 ∨ t = 1 + 1 := by
      simpa [prefixSums] using ht
    rcases ht2 with rfl | rfl
    · refine ⟨?_, Or.inl rfl⟩
      rw [hp1]
      rw [show |(1000 : ℝ)| = 1000 by norm_num]
      norm_num
    · refine ⟨?_, Or.inl rfl⟩
      rw [show ((1 : ℚ) + 1) = (2 : ℚ) by norm_num, hp2]
      rw [show |(1000 : ℝ)| = 1000 by norm_num]
      norm_num

end Zelda
